import Mathlib

/-!
Shallow embedding of the libiter hash map engine (src/src/hashmap.c together
with src/include/iter/hashmap.h, error.h and hash.h) and proofs about it.

Modelling conventions:
* Machine integers (`size_t`, `hash_t`, `uint8_t`) are modelled as `Nat`,
  reduced modulo `2 ^ 64` (resp. `2 ^ 8`) exactly where the C code can wrap.
* A key or a value is a list of byte values (`List Nat`): the engine is fully
  type-erased and only ever moves `ksize`/`vsize` raw bytes around.
* The backing buffer is modelled bucket-structured: a list of `Bucket`s, each
  holding the sixteen metadata bytes and the sixteen key/value slots of one
  group.  The byte-offset arithmetic of the C code (`koffset`, `voffset`,
  `bucketSize`, allocation sizes) is modelled separately by explicit offset
  functions, used by the bounds-safety claim.
* The allocator is an external collaborator (allocator.h is not part of this
  repository).  It is modelled as an oracle `Nat → Bool` giving the outcome of
  the i-th allocation call; a successful `reallocate` keeps the old contents
  and zero-fills the extension (the engine relies on fresh metadata reading
  `META_EMPTY = 0`).  The number of allocator calls made so far is threaded
  through the operations explicitly, since it is allocator state and not part
  of `hashmap_t`.
* The unbounded probe loop `BUCKET_EACH` is modelled with fuel equal to the
  number of buckets.  The loop body performs no writes before returning, and
  consecutive iterations visit `(start + q) mod numBuckets`, so after
  `numBuckets` iterations every bucket has been inspected and the loop state
  repeats: if the fuelled version runs out of fuel, the C loop never returns.
  Running out of fuel is therefore mapped to the outcome `hang`.
* Dereferencing a `NULL` buffer is mapped to the outcome `crash`.
* Nested growth recursion (grow_not_empty → fast_insert → reserve →
  grow_not_empty) is fuelled by `gas`; theorems quantify over `gas`, and for
  every terminating C execution some `gas` reproduces it.
-/

namespace LibIter

/-- Byte strings: raw keys and values as lists of byte values. -/
abbrev Bytes := List Nat

/-- hasher_fn from hash.h: hashes a buffer of bytes (the length argument is
implicit in the list). -/
abbrev HasherFn := Bytes → Nat

/-- hash_fn from hash.h: `f item other hasher`; with `other = none` it hashes
`item`, otherwise it compares the two items (0 means equal). -/
abbrev HashFn := Bytes → Option Bytes → HasherFn → Nat

/-- Allocator oracle: outcome of the i-th allocation request made through the
map's allocator. -/
abbrev Oracle := Nat → Bool

/-- Error codes from include/iter/error.h. -/
def ITER_OK : Int := 0

/-- ITER_ENOENT from error.h. -/
def ITER_ENOENT : Int := -2

/-- ITER_ENOMEM from error.h. -/
def ITER_ENOMEM : Int := -12

/-- ITER_EEXIST from error.h. -/
def ITER_EEXIST : Int := -17

/-- ITER_EINVAL from error.h. -/
def ITER_EINVAL : Int := -22

/-- META_SIZE from hashmap.c. -/
def META_SIZE : Nat := 16

/-- META_EMPTY from hashmap.c. -/
def META_EMPTY : Nat := 0

/-- META_TOMB from hashmap.c. -/
def META_TOMB : Nat := 1

/-- HASHMAP_MIN from hashmap.c. -/
def HASHMAP_MIN : Nat := META_SIZE

/-- sizeof(union hashmeta): sixteen metadata bytes (the SSE2 member has the
same size). -/
def META_BYTES : Nat := 16

/-- alignof(union hashmeta) in the SSE2 build (alignment of __m128i). -/
def META_ALIGN : Nat := 16

/-- Word size: C `size_t` and `hash_t` arithmetic is modulo `2 ^ 64`. -/
def W64 : Nat := 2 ^ 64

/-- FNV prime for 64-bit hash_t (hash.h). -/
def HASH_FNV_PRIME : Nat := 0x00000100000001b3

/-- FNV offset basis for 64-bit hash_t (hash.h). -/
def HASH_FNV_OFFSET : Nat := 0xcbf29ce484222325

/-- hasher_fnv1a from hash.h: for each byte, xor it in and multiply by the
FNV prime, modulo 2^64. -/
def hasher_fnv1a : HasherFn := fun buffer =>
  buffer.foldl (fun hash b => ((hash ^^^ b % 256) * HASH_FNV_PRIME) % W64) HASH_FNV_OFFSET

/-- Modelled from the spec: PF_ALIGN_PAD is an external macro (pf library,
not in src/).  Per spec section 4.1 every offset is padded to the next
multiple of the alignment, so the padding is the distance from `offset` up to
the next multiple of `align` (0 if already aligned, and 0 for a zero
alignment, which only arises for zero-sized value types). -/
def PF_ALIGN_PAD (offset align : Nat) : Nat :=
  if align = 0 then 0 else (align - offset % align) % align

/-- One group of the backing buffer: 16 metadata bytes, 16 key slots and 16
value slots (struct bucket in hashmap.c). -/
structure Bucket where
  meta : List Nat
  keys : List Bytes
  vals : List Bytes
  deriving DecidableEq, Repr

/-- A bucket as produced by zero-initialised fresh memory: all metadata bytes
are META_EMPTY and the key/value bytes are zero. -/
def Bucket.fresh (ksize vsize : Nat) : Bucket :=
  { meta := List.replicate 16 0
    keys := List.replicate 16 (List.replicate ksize 0)
    vals := List.replicate 16 (List.replicate vsize 0) }

/-- Out-of-range bucket reads (never taken on reachable states) return this
junk bucket. -/
def Bucket.junk : Bucket := { meta := [], keys := [], vals := [] }

/-- hashmap_t from hashmap.h.  `buffer = none` models a NULL buffer pointer.
`capacityLog2` is uninitialised (modelled as 0) until the first growth; it is
unobservable through `hashmap__capacity` while `buffer` is NULL. -/
structure Hashmap where
  buffer : Option (List Bucket)
  count : Nat
  ksize : Nat
  koffset : Nat
  vsize : Nat
  voffset : Nat
  bucketSize : Nat
  capacityLog2 : Nat
  hash : Option HashFn
  hasher : HasherFn

/-- struct hashmap_layout from hashmap.h. -/
structure HashmapLayout where
  ksize : Nat
  kalign : Nat
  vsize : Nat
  valign : Nat

/-- hashmap__capacity from hashmap.h: `map->buffer ? 1 << map->capacityLog2 : 0`
(the C `1 << log2` is an int shift; its overflow for log2 ≥ 31 is not
reachable with physical memory sizes and is not modelled). -/
def hashmap__capacity (m : Hashmap) : Nat :=
  if m.buffer.isSome then 2 ^ m.capacityLog2 else 0

/-- hashmap__count from hashmap.h. -/
def hashmap__count (m : Hashmap) : Nat := m.count

/-- meta_match from hashmap.c, scalar fallback branch: bit i of the result is
set iff metadata byte i equals `part` (out |= 1 << i). -/
def meta_match (meta : List Nat) (part : Nat) : Nat :=
  (List.range META_SIZE).foldl
    (fun out i => if meta.getD i 0 = part then out ||| (1 <<< i) else out) 0

/-- _mm_cmpeq_epi8, one byte lane: all-ones (0xFF) if the bytes are equal,
otherwise zero. -/
def mm_cmpeq_epi8 (x y : Nat) : Nat := if x = y then 255 else 0

/-- _mm_movemask_epi8: collects the most significant bit of each of the 16
byte lanes into a 16-bit mask. -/
def mm_movemask_epi8 (c : List Nat) : Nat :=
  (List.range 16).foldl (fun out i => out ||| ((((c.getD i 0) >>> 7) &&& 1) <<< i)) 0

/-- meta_match from hashmap.c, SSE2 branch: one 128-bit compare of the whole
metadata array against the broadcast `part`, movemask'd into the result
(META_SIZE / 16 = 1 iteration of `out |= result << (i * 16)`). -/
def meta_match_sse2 (meta : List Nat) (part : Nat) : Nat :=
  0 ||| ((mm_movemask_epi8 ((List.range 16).map (fun i => mm_cmpeq_epi8 (meta.getD i 0) part))) <<< 0)

/-- meta_part from hashmap.c: low byte of the hash, stepped past the
META_EMPTY and META_TOMB sentinels. -/
def meta_part (hash : Nat) : Nat :=
  let part := hash % 256
  let part := if part = META_EMPTY then part + 1 else part
  let part := if part = META_TOMB then part + 1 else part
  part

/-- compare_key from hashmap.c: the custom hash_fn called in comparison mode
(its hash_t result is implicitly converted to int, keeping the low 32 bits),
or memcmp over the ksize key bytes (both arguments are ksize-byte strings, so
memcmp returns 0 exactly on list equality). -/
def compare_key (m : Hashmap) (x y : Bytes) : Nat :=
  match m.hash with
  | some f => (f x (some y) m.hasher) % 2 ^ 32
  | none => if x = y then 0 else 1

/-- get_hash from hashmap.c: custom hash_fn in hashing mode, or the raw
hasher over the ksize key bytes. -/
def get_hash (m : Hashmap) (key : Bytes) : Nat :=
  match m.hash with
  | some f => (f key none m.hasher) % W64
  | none => (m.hasher key) % W64

/-- get_mask from hashmap.c: `(capacity - 1) / META_SIZE`, the bucket-index
mask. -/
def get_mask (m : Hashmap) : Nat := (hashmap__capacity m - 1) / META_SIZE

/-- round_pow2 from hashmap.c (the bit-smearing round-up-to-power-of-two).
The C decrements first, so an input of 0 wraps to SIZE_MAX, ors to SIZE_MAX
and increments back to 0; that branch is written out here instead of the
unsigned wrap. -/
def round_pow2 (v : Nat) : Nat :=
  if v = 0 then 0
  else
    let v := v - 1
    let v := v ||| (v >>> 1)
    let v := v ||| (v >>> 2)
    let v := v ||| (v >>> 4)
    let v := v ||| (v >>> 8)
    let v := v ||| (v >>> 16)
    let v := v ||| (v >>> 32)
    v + 1

/-- The load-factor test `map->count + count <= capacity * HASHMAP_THRESHOLD`
from hashmap__reserve.  0.7 as a C double is 7/10 − δ with δ < 2 ^ (-54), and
`capacity` is a power of two, so for every physically reachable capacity
(below 2^51) the double comparison agrees with the exact rational
comparison `10 * (count + n) ≤ 7 * capacity`, which is used here. -/
def loadOk (count n capacity : Nat) : Bool := 10 * (count + n) ≤ 7 * capacity

/-- Base-2 logarithm with an explicit recursion bound (structural recursion
so that proofs can evaluate it). -/
def log2_fuel : Nat → Nat → Nat
  | 0, _ => 0
  | fuel + 1, n => if n < 2 then 0 else log2_fuel fuel (n / 2) + 1

/-- Base-2 logarithm of a 64-bit value: `64 - __builtin_clzl(v)` in the C
code equals `floor(log2 v) + 1` for `1 ≤ v < 2 ^ 64`, and `log2_64` computes
the `floor(log2 v)` part (64 division steps suffice for any 64-bit value). -/
def log2_64 (n : Nat) : Nat := log2_fuel 64 n

/-- BITSET_EACH from hashmap.c: the indices of the set bits of a 16-bit
match mask, visited in ascending order. -/
def setBits (bits : Nat) : List Nat :=
  (List.range 16).filter (fun i => bits.testBit i)

/-- Result of an int-returning map operation: a returned code with the
resulting map and allocator-call count, or an abnormal outcome (`hang` for a
probe loop that never returns, `crash` for a NULL-buffer dereference,
`gasOut` for exhausted growth-recursion fuel — see the header comment). -/
inductive Res where
  | ret (code : Int) (m : Hashmap) (calls : Nat)
  | hang
  | crash
  | gasOut
  deriving Inhabited

/-- The returned error code of a normal result. -/
def Res.code : Res → Option Int
  | .ret c _ _ => some c
  | _ => none

/-- The resulting map of a normal result. -/
def Res.st : Res → Option Hashmap
  | .ret _ m _ => some m
  | _ => none

/-- The allocator-call count of a normal result. -/
def Res.calls : Res → Option Nat
  | .ret _ _ c => some c
  | _ => none

/-- Result of hashmap__get: a value pointer (`none` models NULL) or an
abnormal outcome. -/
inductive PtrRes where
  | ptr (p : Option Bytes)
  | hang
  | crash
  deriving Inhabited

/-- hashmap__init from hashmap.c: validates the layout, derives the runtime
bucket geometry (koffset, voffset, bucketSize with alignment padding) and
installs the default hash strategy.  Returns `none` for NULL out/layout or a
zero-sized key type. -/
def hashmap__init (layout : HashmapLayout) : Option Hashmap :=
  if layout.ksize = 0 then none
  else
    let kalign := max layout.kalign layout.ksize
    let valign := max layout.valign layout.vsize
    let koffset := META_BYTES + PF_ALIGN_PAD META_BYTES kalign
    let voffset0 := koffset + layout.ksize * META_SIZE
    let voffset := voffset0 + PF_ALIGN_PAD voffset0 valign
    let bucketSize0 := voffset + layout.vsize * META_SIZE
    let bucketSize := bucketSize0 + PF_ALIGN_PAD bucketSize0 META_ALIGN
    some
      { buffer := none
        count := 0
        ksize := layout.ksize
        koffset := koffset
        vsize := layout.vsize
        voffset := voffset
        bucketSize := bucketSize
        capacityLog2 := 0
        hash := none
        hasher := hasher_fnv1a }

/-- hashmap__use_hash from hashmap.c: rejected while items are present
(`map->count > 0`), otherwise installs the strategy (a NULL hasher falls back
to hasher_fnv1a). -/
def hashmap__use_hash (m : Hashmap) (hash : Option HashFn) (hasher : Option HasherFn) :
    Int × Hashmap :=
  if 0 < m.count then (ITER_EINVAL, m)
  else (ITER_OK, { m with hash := hash, hasher := hasher.getD hasher_fnv1a })

/-- grow_empty from hashmap.c.  The reallocation outcome is read off the
allocator oracle at the current call index.  On success the old contents are
kept and the buffer is extended with zero-initialised buckets up to
`capacity * 2 / META_SIZE` buckets — the bucket count implied by the new
`capacityLog2 = 64 - clzl(capacity) = log2_64 capacity + 1` (the byte count
the C code actually passes to the allocator is modelled separately, see the
bounds-safety definitions).  On failure the map is untouched. -/
def grow_empty (A : Oracle) (m : Hashmap) (calls capacity : Nat) : Res :=
  if A calls then
    let nbNew := capacity * 2 / META_SIZE
    let old := m.buffer.getD []
    let buf := old ++ List.replicate (nbNew - old.length) (Bucket.fresh m.ksize m.vsize)
    .ret ITER_OK
      { m with buffer := some buf, capacityLog2 := log2_64 capacity + 1 }
      (calls + 1)
  else .ret ITER_ENOMEM m (calls + 1)

/-- The occupied entries of the map in bucket-scan order, as collected by the
rehash loop of grow_not_empty (metadata neither META_EMPTY nor META_TOMB). -/
def collectEntries (m : Hashmap) : List (Bytes × Bytes) :=
  (List.range (hashmap__capacity m / META_SIZE)).flatMap fun b =>
    let bk := (m.buffer.getD []).getD b Bucket.junk
    (List.range META_SIZE).flatMap fun i =>
      if bk.meta.getD i 0 = META_EMPTY ∨ bk.meta.getD i 0 = META_TOMB then []
      else [(bk.keys.getD i [], bk.vals.getD i [])]

/-- BUCKET_EACH from hashmap.c: the unbounded linear bucket walk.  The loop
body `f` inspects the bucket at index `b` and either returns (`some`) or
falls through to the next bucket `(b + 1) & mask`.  Fuel of one unit per
bucket is sufficient for any terminating run of the C loop (the body writes
nothing before returning and the walk revisits the same buckets after
`numBuckets` steps), so running out models an infinite loop. -/
def bucket_each {α : Type} (f : Nat → Option α) (mask : Nat) :
    Nat → Nat → Option α
  | 0, _ => none
  | fuel + 1, b =>
    match f b with
    | some r => some r
    | none => bucket_each f mask fuel ((b + 1) &&& mask)

/-- Writing tag, key and value into slot `i` of the bucket at index `b
(the claim step shared by the three insertion paths). -/
def claimSlot (buf : List Bucket) (b i part : Nat) (key value : Bytes) : List Bucket :=
  let bk := buf.getD b Bucket.junk
  buf.set b
    { meta := bk.meta.set i part
      keys := bk.keys.set i key
      vals := bk.vals.set i value }

/-- The loop body of hashmap__fast_insert, at one bucket: claim the first
META_EMPTY slot (BITSET_EACH ascending) if the bucket has one. -/
def fast_insert_scan (buf : List Bucket) (part : Nat) (key value : Bytes) (b : Nat) :
    Option (List Bucket) :=
  match setBits (meta_match (buf.getD b Bucket.junk).meta META_EMPTY) with
  | [] => none
  | i :: _ => some (claimSlot buf b i part key value)

/-- The probe loop of hashmap__fast_insert. -/
def probe_fast_insert (buf : List Bucket) (mask part : Nat) (key value : Bytes)
    (fuel b : Nat) : Option (List Bucket) :=
  bucket_each (fast_insert_scan buf part key value) mask fuel b

/-- One step of the rehash loop of grow_not_empty: each surviving entry is
re-inserted into the temporary map with hashmap__fast_insert, whose return
value is ignored (the resulting map is kept either way). -/
def rehashInto (fi : Hashmap → Nat → Bytes → Bytes → Res) :
    List (Bytes × Bytes) → Hashmap → Nat → Res
  | [], tmp, calls => .ret ITER_OK tmp calls
  | (k, v) :: rest, tmp, calls =>
    match fi tmp calls k v with
    | .ret _ tmp' calls' => rehashInto fi rest tmp' calls'
    | r => r

/-- hashmap__reserve from hashmap.c, parameterised by the non-empty-growth
routine: if `count + n` stays within the 0.7 load-factor threshold nothing
happens; otherwise the new capacity is `max(round_pow2(capacity), HASHMAP_MIN)`
(computed from the current capacity, not from `n`), grown via grow_empty when
the map holds no items, else via grow_not_empty. -/
def reserve_with (gne : Hashmap → Nat → Nat → Res) (A : Oracle)
    (m : Hashmap) (calls n : Nat) : Res :=
  let capacity := hashmap__capacity m
  if loadOk m.count n capacity then .ret ITER_OK m calls
  else
    let required := hashmap__capacity m
    let cap2 := max (round_pow2 required) HASHMAP_MIN
    if m.count = 0 then grow_empty A m calls cap2
    else gne m calls cap2

/-- hashmap__fast_insert from hashmap.c, parameterised by the
non-empty-growth routine: reserve one slot (any failure is reported as
ITER_ENOMEM), then claim the first empty slot along the probe sequence
starting at `hash & mask`. -/
def fast_insert_with (gne : Hashmap → Nat → Nat → Res) (A : Oracle)
    (m : Hashmap) (calls : Nat) (key value : Bytes) : Res :=
  match reserve_with gne A m calls 1 with
  | .ret code m1 calls1 =>
    if code ≠ ITER_OK then .ret ITER_ENOMEM m1 calls1
    else
      match m1.buffer with
      | none => .crash
      | some buf =>
        let hash := get_hash m1 key
        let part := meta_part hash
        let mask := get_mask m1
        match probe_fast_insert buf mask part key value buf.length (hash &&& mask) with
        | some buf' => .ret ITER_OK { m1 with buffer := some buf', count := m1.count + 1 } calls1
        | none => .hang
  | r => r

/-- grow_not_empty from hashmap.c, fuelled on growth-recursion depth.  The
code reads `if (!grow_empty(&tmp, capacity)) return ITER_ENOMEM;`: when the
temporary map's allocation SUCCEEDS the function reports out-of-memory with
the original map untouched (the fresh buffer is leaked), and when the
allocation FAILS it carries on, re-inserting every surviving entry into the
unallocated temporary map (each fast_insert consults the allocator again and
its result is ignored), then frees the old buffer and adopts the temporary
map. -/
def grow_not_empty (A : Oracle) : Nat → Hashmap → Nat → Nat → Res
  | 0, _, _, _ => .gasOut
  | gas + 1, m, calls, capacity =>
    let tmp0 : Hashmap := { m with buffer := none, count := 0 }
    match grow_empty A tmp0 calls capacity with
    | .ret code tmp calls1 =>
      if code = ITER_OK then .ret ITER_ENOMEM m calls1
      else rehashInto (fast_insert_with (grow_not_empty A gas) A) (collectEntries m) tmp calls1
    | r => r

/-- hashmap__reserve from hashmap.c (public entry; the NULL-map EINVAL branch
is not modelled, maps are values here). -/
def hashmap__reserve (A : Oracle) (gas : Nat) (m : Hashmap) (calls n : Nat) : Res :=
  reserve_with (grow_not_empty A gas) A m calls n

/-- hashmap__fast_insert from hashmap.c (public entry, with the NULL-argument
check). -/
def hashmap__fast_insert (A : Oracle) (gas : Nat) (m : Hashmap) (calls : Nat)
    (key value : Option Bytes) : Res :=
  match key, value with
  | some key, some value => fast_insert_with (grow_not_empty A gas) A m calls key value
  | _, _ => .ret ITER_EINVAL m calls

/-- The loop body of hashmap__get, at one bucket: visit the tag matches in
ascending slot order and return the value of the first key-equal slot; stop
with NULL (`some none`) if the bucket contains an empty slot. -/
def get_scan (m : Hashmap) (buf : List Bucket) (part : Nat) (key : Bytes) (b : Nat) :
    Option (Option Bytes) :=
  let bk := buf.getD b Bucket.junk
  match (setBits (meta_match bk.meta part)).find?
      (fun i => compare_key m key (bk.keys.getD i []) == 0) with
  | some i => some (some (bk.vals.getD i []))
  | none => if meta_match bk.meta META_EMPTY ≠ 0 then some none else none

/-- The probe loop of hashmap__get. -/
def probe_get (m : Hashmap) (buf : List Bucket) (mask part : Nat) (key : Bytes)
    (fuel b : Nat) : Option (Option Bytes) :=
  bucket_each (get_scan m buf part key) mask fuel b

/-- hashmap__get from hashmap.c: NULL for a NULL key or an empty map,
otherwise the probe walk. -/
def hashmap__get (m : Hashmap) (key : Option Bytes) : PtrRes :=
  match key with
  | none => .ptr none
  | some key =>
    if m.count = 0 then .ptr none
    else
      match m.buffer with
      | none => .crash
      | some buf =>
        let hash := get_hash m key
        let part := meta_part hash
        let mask := get_mask m
        match probe_get m buf mask part key buf.length (hash &&& mask) with
        | some r => .ptr r
        | none => .hang

/-- The loop body of hashmap__insert, at one bucket: report an existing
key-equal match (`some none`, the ITER_EEXIST outcome), otherwise claim the
first empty slot if the bucket has one (`some (some buf')`). -/
def insert_scan (m : Hashmap) (buf : List Bucket) (part : Nat) (key value : Bytes) (b : Nat) :
    Option (Option (List Bucket)) :=
  let bk := buf.getD b Bucket.junk
  if (setBits (meta_match bk.meta part)).any
      (fun i => compare_key m key (bk.keys.getD i []) == 0) then some none
  else
    match setBits (meta_match bk.meta META_EMPTY) with
    | [] => none
    | i :: _ => some (some (claimSlot buf b i part key value))

/-- The probe loop of hashmap__insert. -/
def probe_insert (m : Hashmap) (buf : List Bucket) (mask part : Nat) (key value : Bytes)
    (fuel b : Nat) : Option (Option (List Bucket)) :=
  bucket_each (insert_scan m buf part key value) mask fuel b

/-- hashmap__insert from hashmap.c: NULL checks, reserve one slot (failure
reported as ITER_ENOMEM), then the distinct-insert probe. -/
def hashmap__insert (A : Oracle) (gas : Nat) (m : Hashmap) (calls : Nat)
    (key value : Option Bytes) : Res :=
  match key, value with
  | some key, some value =>
    match hashmap__reserve A gas m calls 1 with
    | .ret code m1 calls1 =>
      if code ≠ ITER_OK then .ret ITER_ENOMEM m1 calls1
      else
        match m1.buffer with
        | none => .crash
        | some buf =>
          let hash := get_hash m1 key
          let part := meta_part hash
          let mask := get_mask m1
          match probe_insert m1 buf mask part key value buf.length (hash &&& mask) with
          | some none => .ret ITER_EEXIST m1 calls1
          | some (some buf') =>
            .ret ITER_OK { m1 with buffer := some buf', count := m1.count + 1 } calls1
          | none => .hang
    | r => r
  | _, _ => .ret ITER_EINVAL m calls

/-- The loop body of hashmap__set, at one bucket: overwrite the value of the
first key-equal match in place (`(false, buf')`), otherwise claim the first
empty slot if the bucket has one (`(true, buf')`, which increments the
count). -/
def set_scan (m : Hashmap) (buf : List Bucket) (part : Nat) (key value : Bytes) (b : Nat) :
    Option (Bool × List Bucket) :=
  let bk := buf.getD b Bucket.junk
  match (setBits (meta_match bk.meta part)).find?
      (fun i => compare_key m key (bk.keys.getD i []) == 0) with
  | some i => some (false, buf.set b { bk with vals := bk.vals.set i value })
  | none =>
    match setBits (meta_match bk.meta META_EMPTY) with
    | [] => none
    | i :: _ => some (true, claimSlot buf b i part key value)

/-- The probe loop of hashmap__set. -/
def probe_set (m : Hashmap) (buf : List Bucket) (mask part : Nat) (key value : Bytes)
    (fuel b : Nat) : Option (Bool × List Bucket) :=
  bucket_each (set_scan m buf part key value) mask fuel b

/-- hashmap__set from hashmap.c: NULL checks, reserve one slot, then the
upsert probe. -/
def hashmap__set (A : Oracle) (gas : Nat) (m : Hashmap) (calls : Nat)
    (key value : Option Bytes) : Res :=
  match key, value with
  | some key, some value =>
    match hashmap__reserve A gas m calls 1 with
    | .ret code m1 calls1 =>
      if code ≠ ITER_OK then .ret ITER_ENOMEM m1 calls1
      else
        match m1.buffer with
        | none => .crash
        | some buf =>
          let hash := get_hash m1 key
          let part := meta_part hash
          let mask := get_mask m1
          match probe_set m1 buf mask part key value buf.length (hash &&& mask) with
          | some (claimed, buf') =>
            .ret ITER_OK
              { m1 with buffer := some buf'
                        count := if claimed then m1.count + 1 else m1.count } calls1
          | none => .hang
    | r => r
  | _, _ => .ret ITER_EINVAL m calls

/-- The loop body of hashmap__remove, at one bucket: tombstone the first
key-equal match (`some (some buf')`), or report not-found (`some none`) if
the bucket contains an empty slot. -/
def remove_scan (m : Hashmap) (buf : List Bucket) (part : Nat) (key : Bytes) (b : Nat) :
    Option (Option (List Bucket)) :=
  let bk := buf.getD b Bucket.junk
  match (setBits (meta_match bk.meta part)).find?
      (fun i => compare_key m key (bk.keys.getD i []) == 0) with
  | some i => some (some (buf.set b { bk with meta := bk.meta.set i META_TOMB }))
  | none => if meta_match bk.meta META_EMPTY ≠ 0 then some none else none

/-- The probe loop of hashmap__remove. -/
def probe_remove (m : Hashmap) (buf : List Bucket) (mask part : Nat) (key : Bytes)
    (fuel b : Nat) : Option (Option (List Bucket)) :=
  bucket_each (remove_scan m buf part key) mask fuel b

/-- hashmap__remove from hashmap.c: NULL check, ITER_ENOENT on an empty map,
then the removal probe (ITER_OK decrements the count). -/
def hashmap__remove (m : Hashmap) (calls : Nat) (key : Option Bytes) : Res :=
  match key with
  | none => .ret ITER_EINVAL m calls
  | some key =>
    if m.count = 0 then .ret ITER_ENOENT m calls
    else
      match m.buffer with
      | none => .crash
      | some buf =>
        let hash := get_hash m key
        let part := meta_part hash
        let mask := get_mask m
        match probe_remove m buf mask part key buf.length (hash &&& mask) with
        | some (some buf') => .ret ITER_OK { m with buffer := some buf', count := m.count - 1 } calls
        | some none => .ret ITER_ENOENT m calls
        | none => .hang

/-- hashmap__with_capacity from hashmap.c: create (the handle allocation of
hashmap__create is outside the byte-buffer model and assumed to succeed) then
reserve `capacity` items, destroying the map and returning NULL if the
reservation fails. -/
def hashmap__with_capacity (A : Oracle) (gas : Nat) (capacity : Nat)
    (layout : HashmapLayout) (calls : Nat) : Option (Hashmap × Nat) :=
  match hashmap__init layout with
  | none => none
  | some m =>
    if capacity = 0 then some (m, calls)
    else
      match hashmap__reserve A gas m calls capacity with
      | .ret code m' calls' => if code = ITER_OK then some (m', calls') else none
      | _ => none

/-- A public mutating operation with concrete arguments (used to describe
call sequences; hashmap__use_hash and hashmap__fast_insert carry function
arguments and are treated by separate reachability constructors). -/
inductive Op where
  | ins (k v : Bytes)
  | set (k v : Bytes)
  | rem (k : Bytes)
  | res (n : Nat)

/-- Run one public operation. -/
def stepOp (A : Oracle) (gas : Nat) (op : Op) (m : Hashmap) (calls : Nat) : Res :=
  match op with
  | .ins k v => hashmap__insert A gas m calls (some k) (some v)
  | .set k v => hashmap__set A gas m calls (some k) (some v)
  | .rem k => hashmap__remove m calls (some k)
  | .res n => hashmap__reserve A gas m calls n

/-- Run a sequence of public operations, keeping going across returned error
codes and stopping only on an abnormal outcome. -/
def execOps (A : Oracle) (gas : Nat) : List Op → Hashmap → Nat → Option (Hashmap × Nat)
  | [], m, calls => some (m, calls)
  | op :: rest, m, calls =>
    match stepOp A gas op m calls with
    | .ret _ m' calls' => execOps A gas rest m' calls'
    | _ => none

/-- The map states reachable through the public API, starting from a
successfully initialised map, with an arbitrary allocator behaviour at every
step. -/
inductive Reachable : Hashmap → Prop where
  | init (layout : HashmapLayout) (m : Hashmap) :
      hashmap__init layout = some m → Reachable m
  | step (A : Oracle) (gas : Nat) (op : Op) (m : Hashmap) (calls : Nat)
      (code : Int) (m' : Hashmap) (calls' : Nat) :
      Reachable m → stepOp A gas op m calls = .ret code m' calls' → Reachable m'
  | fastIns (A : Oracle) (gas : Nat) (m : Hashmap) (calls : Nat)
      (k v : Option Bytes) (code : Int) (m' : Hashmap) (calls' : Nat) :
      Reachable m → hashmap__fast_insert A gas m calls k v = .ret code m' calls' → Reachable m'
  | useHash (m : Hashmap) (h : Option HashFn) (hr : Option HasherFn)
      (code : Int) (m' : Hashmap) :
      Reachable m → hashmap__use_hash m h hr = (code, m') → Reachable m'

/-! Byte-level accounting of the C code's allocator traffic and buffer
accesses (the logical bucket model above abstracts the byte layout; the
bounds-safety claim is about these expressions). -/

/-- The new byte size grow_empty passes to reallocate:
`sizeof(union hashmeta) * capacity * 2 / META_SIZE`. -/
def grow_empty_alloc_bytes (capacity : Nat) : Nat := META_BYTES * capacity * 2 / META_SIZE

/-- The old byte size grow_empty passes to reallocate:
`sizeof(union hashmeta) * capacity / META_SIZE`. -/
def grow_empty_alloc_old_bytes (capacity : Nat) : Nat := META_BYTES * capacity / META_SIZE

/-- The byte size hashmap__free passes to deallocate:
`(1 << capacityLog2) / META_SIZE` buckets of `bucketSize` bytes. -/
def free_dealloc_bytes (m : Hashmap) : Nat := (2 ^ m.capacityLog2 / META_SIZE) * m.bucketSize

/-- Byte offset of the metadata array of bucket `b` (get_meta). -/
def meta_byte_off (m : Hashmap) (b : Nat) : Nat := m.bucketSize * b

/-- Byte offset of key slot `i` of bucket `b` (get_key). -/
def key_byte_off (m : Hashmap) (b i : Nat) : Nat := m.bucketSize * b + m.koffset + i * m.ksize

/-- Byte offset of value slot `i` of bucket `b` (get_value). -/
def value_byte_off (m : Hashmap) (b i : Nat) : Nat := m.bucketSize * b + m.voffset + i * m.vsize

/-! Predicates used to state the invariant and probe properties. -/

/-- The test the probe loops use to detect an empty slot in a bucket. -/
def bucketHasEmpty (bk : Bucket) : Prop := meta_match bk.meta META_EMPTY ≠ 0

/-- A bucket with no empty slot (the probe walks past it). -/
def bucketFull (bk : Bucket) : Prop := meta_match bk.meta META_EMPTY = 0

/-- Some bucket of the buffer still has a truly empty slot. -/
def hasEmptySlot (buf : List Bucket) : Prop :=
  ∃ b < buf.length, bucketHasEmpty (buf.getD b Bucket.junk)

/-- Slot (b, i) is occupied: its metadata byte is neither META_EMPTY nor
META_TOMB. -/
def occupiedAt (buf : List Bucket) (b i : Nat) : Prop :=
  2 ≤ (buf.getD b Bucket.junk).meta.getD i 0

/-- The number of occupied slots of the buffer. -/
def occCount (buf : List Bucket) : Nat :=
  (buf.map fun bk => ((List.range 16).filter (fun i => 2 ≤ bk.meta.getD i 0)).length).sum

/-- Some occupied slot holds a key that compares equal to `key` under the
map's equality strategy. -/
def containsEqKey (m : Hashmap) (buf : List Bucket) (key : Bytes) : Prop :=
  ∃ b < buf.length, ∃ i < 16, occupiedAt buf b i ∧
    compare_key m key ((buf.getD b Bucket.junk).keys.getD i []) = 0

/-- No slot of the buffer carries `key`'s hash tag together with a stored key
that compares equal to `key` (such a slot is where a lookup probe stops). -/
def noEqSlot (m : Hashmap) (buf : List Bucket) (key : Bytes) : Prop :=
  ∀ b < buf.length, ∀ j < 16,
    (buf.getD b Bucket.junk).meta.getD j 0 = meta_part (get_hash m key) →
    compare_key m key ((buf.getD b Bucket.junk).keys.getD j []) ≠ 0

/-- A lawful hash/equality strategy: comparison is reflexive and items that
compare equal hash alike (the documented hash_fn contract in hash.h; the
default strategy — byte equality with any hasher — satisfies it). -/
def StrategyLawful (m : Hashmap) : Prop :=
  (∀ x, compare_key m x x = 0) ∧
  (∀ x y, compare_key m x y = 0 → get_hash m x = get_hash m y)

/-- The probe-order invariant of an occupied slot (b, i): its metadata byte
is the tag of its key's hash, and every bucket that the key's probe sequence
visits before reaching bucket b is full, so a lookup of that key cannot stop
early. -/
def goodSlot (m : Hashmap) (buf : List Bucket) (b i : Nat) : Prop :=
  let bk := buf.getD b Bucket.junk
  let h := get_hash m (bk.keys.getD i [])
  bk.meta.getD i 0 = meta_part h ∧
  ∃ p < buf.length, b = (h + p) % buf.length ∧
    ∀ q < p, bucketFull (buf.getD ((h + q) % buf.length) Bucket.junk)

/-- Well-formedness of one bucket: the three slot arrays have 16 entries. -/
structure BucketWF (bk : Bucket) : Prop where
  metaLen : bk.meta.length = 16
  keysLen : bk.keys.length = 16
  valsLen : bk.vals.length = 16

/-- Well-formedness of a map with an allocated buffer. -/
structure BufWF (m : Hashmap) (buf : List Bucket) : Prop where
  len : buf.length = 2 ^ (m.capacityLog2 - 4)
  log5 : 5 ≤ m.capacityLog2
  bwf : ∀ b < buf.length, BucketWF (buf.getD b Bucket.junk)
  cnt : m.count = occCount buf
  find : ∀ b < buf.length, ∀ i < 16, occupiedAt buf b i → goodSlot m buf b i

/-- The state invariant: a NULL buffer carries no items, an allocated buffer
is well-formed. -/
def WF (m : Hashmap) : Prop :=
  match m.buffer with
  | none => m.count = 0
  | some buf => BufWF m buf

/-! Concrete scenarios used by the claims. -/

/-- A syntactically valid but meaningless map (used as the default of
extractions that are always `some` in the proofs). -/
def hashmapJunk : Hashmap :=
  { buffer := none, count := 0, ksize := 0, koffset := 0, vsize := 0, voffset := 0
    bucketSize := 0, capacityLog2 := 0, hash := none, hasher := hasher_fnv1a }

/-- The map of a run result. -/
def execState (r : Option (Hashmap × Nat)) : Hashmap := (r.map Prod.fst).getD hashmapJunk

/-- Layout for one-byte keys and one-byte values. -/
def layoutB1 : HashmapLayout := ⟨1, 1, 1, 1⟩

/-- Layout for int keys and double values (the spec's map(int → double)
scenario). -/
def layoutID : HashmapLayout := ⟨4, 4, 8, 8⟩

/-- An allocator that always succeeds. -/
def allocAlways : Oracle := fun _ => true

/-- An allocator that satisfies only its first request. -/
def allocFirstOnly : Oracle := fun i => i == 0

/-- An allocator that fails its second request (index 1) and satisfies all
others. -/
def allocFailSecond : Oracle := fun i => !(i == 1)

/-- A freshly initialised one-byte/one-byte map. -/
def mapB1 : Hashmap := (hashmap__init layoutB1).getD hashmapJunk

/-- Insertions of n distinct one-byte keys. -/
def insKeys (n : Nat) : List Op := (List.range n).map fun i => Op.ins [i] [i]

/-- n insert/remove churn pairs of the single key [5]. -/
def churnOps (n : Nat) : List Op :=
  (List.range n).flatMap fun _ => [Op.ins [5] [7], Op.rem [5]]

/-- The map after inserting 22 distinct keys into a fresh map (allocator
healthy): capacity 32, count 22, the load-factor threshold is reached. -/
def map22 : Hashmap := execState (execOps allocAlways 1 (insKeys 22) mapB1 0)

/-- The map after inserting one entry into a fresh map. -/
def mapOne : Hashmap := execState (execOps allocFirstOnly 1 [Op.ins [5] [7]] mapB1 0)

/-- Reserving room for 22 more entries on `mapOne` while the allocator
refuses: the non-empty growth path with a failing reallocation. -/
def wipeRun : Res := hashmap__reserve allocFirstOnly 1 mapOne 1 22

/-- The map `wipeRun` leaves behind. -/
def mapWiped : Hashmap := wipeRun.st.getD hashmapJunk

/-- The 23rd insertion into `map22` when the allocator fails exactly the
reallocation of the doubled table and satisfies the retry inside the rehash
loop. -/
def overRun : Res := hashmap__insert allocFailSecond 1 map22 1 (some [22]) (some [9])

/-- The map `overRun` leaves behind. -/
def mapOver : Hashmap := overRun.st.getD hashmapJunk

/-- One pinned entry, then 31 insert/remove churn pairs: every one of the 32
slots is occupied or tombstoned, count = 1, yet the load factor is far below
the threshold. -/
def exhausted : Hashmap :=
  execState (execOps allocAlways 1 (Op.ins [1] [9] :: churnOps 31) mapB1 0)

/-- One pinned entry and 30 churn pairs: exactly one truly empty slot is
left. -/
def churn30 : Hashmap :=
  execState (execOps allocAlways 1 (Op.ins [1] [9] :: churnOps 30) mapB1 0)

/-- Inserting key [5] into `churn30` (claims the last empty slot). -/
def c6run1 : Res := hashmap__insert allocAlways 1 churn30 1 (some [5]) (some [7])

/-- The map after `c6run1`. -/
def c6map1 : Hashmap := c6run1.st.getD hashmapJunk

/-- Removing key [5] again (tombstones the slot; no empty slot remains). -/
def c6run2 : Res := hashmap__remove c6map1 1 (some [5])

/-- The map after `c6run2`. -/
def c6map2 : Hashmap := c6run2.st.getD hashmapJunk

/-- A concrete well-formed two-bucket map (capacity 32, no entries) used to
witness the amended tombstone-discipline statement. -/
def c6w0 : Hashmap :=
  { buffer := some [Bucket.fresh 1 1, Bucket.fresh 1 1], count := 0
    ksize := 1, koffset := 16, vsize := 1, voffset := 32
    bucketSize := 48, capacityLog2 := 5, hash := none, hasher := hasher_fnv1a }

/-- `c6w0` after inserting key [5]. -/
def c6w1 : Hashmap :=
  (hashmap__insert allocAlways 1 c6w0 0 (some [5]) (some [7])).st.getD hashmapJunk

/-- `c6w1` after removing key [5] again. -/
def c6w2 : Hashmap := (hashmap__remove c6w1 0 (some [5])).st.getD hashmapJunk

/-- with_capacity for 1000 entries on the one-byte layout. -/
def mapWC : Hashmap :=
  ((hashmap__with_capacity allocAlways 1 1000 layoutB1 0).map Prod.fst).getD hashmapJunk

/-- The map after inserting and then removing key [3]: count is back to 0
although an entry was inserted at some point. -/
def mapUH : Hashmap :=
  execState (execOps allocAlways 1 [Op.ins [3] [7], Op.rem [3]] mapB1 0)

/-- A demonstration custom strategy for use_hash: byte equality and a
constant hash. -/
def fDemo : HashFn := fun k o _hs =>
  match o with
  | some y => if k = y then 0 else 1
  | none => 0

/-- A fresh int→double map. -/
def mapID0 : Hashmap := (hashmap__init layoutID).getD hashmapJunk

/-- The first insertion into the int→double map (triggers the first
growth). -/
def idRun : Res := hashmap__insert allocAlways 1 mapID0 0 (some [1, 0, 0, 0]) (some (List.replicate 8 0))

/-- The map after `idRun`. -/
def mapID1 : Hashmap := idRun.st.getD hashmapJunk

/-- A sample 16-byte metadata array for the matching-equivalence witness. -/
def metaDemo : List Nat := [0, 1, 2, 3, 44, 5, 6, 7, 8, 9, 10, 11, 12, 13, 14, 44]

/-! Theorems. -/

/-- Every state produced by running a sequence of public operations from a
reachable state is reachable. -/
theorem reachable_execOps (A : Oracle) (gas : Nat) :
    ∀ (ops : List Op) (m : Hashmap) (calls : Nat) (m' : Hashmap) (calls' : Nat),
      Reachable m → execOps A gas ops m calls = some (m', calls') → Reachable m' := by
  intro ops
  induction ops with
  | nil =>
    intro m calls m' calls' hm h
    simp only [execOps, Option.some.injEq, Prod.mk.injEq] at h
    exact h.1 ▸ hm
  | cons op rest ih =>
    intro m calls m' calls' hm h
    simp only [execOps] at h
    rcases hr : stepOp A gas op m calls with ⟨code, m1, calls1⟩ | _ | _ | _ <;>
        rw [hr] at h
    · exact ih m1 calls1 m' calls' (.step A gas op m calls code m1 calls1 hm hr) h
    · exact absurd h (by simp)
    · exact absurd h (by simp)
    · exact absurd h (by simp)

/-- log2_fuel computes exactly on powers of two within its fuel. -/
theorem log2_fuel_two_pow : ∀ (k fuel : Nat), k < fuel → log2_fuel fuel (2 ^ k) = k := by
  intro k
  induction k with
  | zero =>
    intro fuel h
    match fuel, h with
    | fuel + 1, _ => simp [log2_fuel]
  | succ k ih =>
    intro fuel h
    match fuel, h with
    | fuel + 1, h =>
      have h2 : ¬ (2 ^ (k + 1) < 2) := by
        have : 2 ^ 1 ≤ 2 ^ (k + 1) := Nat.pow_le_pow_right (by norm_num) (by omega)
        simpa using this
      have hdiv : 2 ^ (k + 1) / 2 = 2 ^ k := by
        rw [Nat.pow_succ, Nat.mul_div_cancel _ (by norm_num)]
      simp only [log2_fuel, h2, if_false, hdiv]
      rw [ih fuel (Nat.lt_of_succ_lt_succ h)]

/-- log2_64 computes exactly on powers of two below 2^64. -/
theorem log2_64_two_pow (k : Nat) (h : k < 64) : log2_64 (2 ^ k) = k :=
  log2_fuel_two_pow k 64 h

/-- round_pow2 fixes powers of two. -/
theorem round_pow2_two_pow (k : Nat) : round_pow2 (2 ^ k) = 2 ^ k := by
  have hne : 2 ^ k ≠ 0 := (Nat.two_pow_pos k).ne'
  have hor : ∀ s, (2 ^ k - 1) ||| ((2 ^ k - 1) >>> s) = 2 ^ k - 1 := by
    intro s
    apply Nat.eq_of_testBit_eq
    intro i
    simp only [Nat.testBit_or, Nat.testBit_shiftRight, Nat.testBit_two_pow_sub_one]
    by_cases h1 : i < k
    · simp [h1]
    · have h2 : ¬ (s + i < k) := by omega
      simp [h1, h2]
  simp only [round_pow2, if_neg hne]
  rw [hor 1, hor 2, hor 4, hor 8, hor 16, hor 32]
  exact Nat.succ_pred_eq_of_pos (Nat.two_pow_pos k)

/-- The bucket mask `(capacity - 1) / META_SIZE` for a capacity `2 ^ L` with
L ≥ 4 is `2 ^ (L - 4) - 1`, one less than the number of buckets. -/
theorem mask_two_pow (L : Nat) (h : 4 ≤ L) : (2 ^ L - 1) / 16 = 2 ^ (L - 4) - 1 := by
  obtain ⟨k, rfl⟩ : ∃ k, L = k + 4 := ⟨L - 4, by omega⟩
  have h16 : (2 : Nat) ^ (k + 4) = 16 * 2 ^ k := by ring
  have hk : 1 ≤ 2 ^ k := Nat.one_le_two_pow
  rw [h16, Nat.add_sub_cancel]
  have hsplit : 16 * 2 ^ k - 1 = 16 * (2 ^ k - 1) + 15 := by omega
  rw [hsplit, Nat.mul_add_div (by norm_num)]
  norm_num

/-- If the loop body rejects every bucket index below `2 ^ t`, BUCKET_EACH
never returns, whatever the fuel: the C loop runs forever. -/
theorem bucket_each_all_none {α : Type} (f : Nat → Option α) (t : Nat)
    (h : ∀ b, b < 2 ^ t → f b = none) :
    ∀ fuel b, b < 2 ^ t → bucket_each f (2 ^ t - 1) fuel b = none := by
  intro fuel
  induction fuel with
  | zero => intro b _; rfl
  | succ n ih =>
    intro b hb
    simp only [bucket_each, h b hb]
    exact ih ((b + 1) &&& (2 ^ t - 1))
      (by rw [Nat.and_pow_two_sub_one_eq_mod]; exact Nat.mod_lt _ (Nat.two_pow_pos t))

/-- If the loop body rejects the first `d` buckets of the walk and accepts
the bucket at distance `d`, BUCKET_EACH with more than `d` units of fuel
returns that result. -/
theorem bucket_each_of_first {α : Type} (f : Nat → Option α) (t : Nat) (r : α) :
    ∀ (d fuel b : Nat), b < 2 ^ t → d < fuel →
      (∀ q < d, f ((b + q) % 2 ^ t) = none) → f ((b + d) % 2 ^ t) = some r →
      bucket_each f (2 ^ t - 1) fuel b = some r := by
  intro d
  induction d with
  | zero =>
    intro fuel b hb hfuel _ hr
    rw [Nat.add_zero, Nat.mod_eq_of_lt hb] at hr
    match fuel, hfuel with
    | fuel + 1, _ => simp only [bucket_each, hr]
  | succ d ih =>
    intro fuel b hb hfuel hnone hr
    have h0 : f b = none := by
      have h := hnone 0 (Nat.succ_pos d)
      rwa [Nat.add_zero, Nat.mod_eq_of_lt hb] at h
    match fuel, hfuel with
    | fuel + 1, hfuel =>
      simp only [bucket_each, h0]
      have hb1 : (b + 1) &&& (2 ^ t - 1) = (b + 1) % 2 ^ t :=
        Nat.and_pow_two_sub_one_eq_mod _ _
      have hshift : ∀ q, ((b + 1) % 2 ^ t + q) % 2 ^ t = (b + (q + 1)) % 2 ^ t := by
        intro q
        rw [Nat.mod_add_mod]
        ring_nf
      rw [hb1]
      apply ih fuel ((b + 1) % 2 ^ t) (Nat.mod_lt _ (Nat.two_pow_pos t))
        (Nat.lt_of_succ_lt_succ hfuel)
      · intro q hq
        rw [hshift q]
        exact hnone (q + 1) (Nat.succ_lt_succ hq)
      · rw [hshift d]
        exact hr

/-- Conversely, if BUCKET_EACH returns then the body accepted the bucket at
some distance `d` below the fuel and rejected every earlier bucket of the
walk. -/
theorem bucket_each_reaches {α : Type} (f : Nat → Option α) (t : Nat) (r : α) :
    ∀ (fuel b : Nat), b < 2 ^ t → bucket_each f (2 ^ t - 1) fuel b = some r →
      ∃ d < fuel, f ((b + d) % 2 ^ t) = some r ∧ ∀ q < d, f ((b + q) % 2 ^ t) = none := by
  intro fuel
  induction fuel with
  | zero => intro b _ h; exact absurd h (by simp [bucket_each])
  | succ n ih =>
    intro b hb h
    simp only [bucket_each] at h
    cases hf : f b with
    | some r' =>
      rw [hf] at h
      cases h
      exact ⟨0, Nat.succ_pos n, by rwa [Nat.add_zero, Nat.mod_eq_of_lt hb], fun q hq => absurd hq (Nat.not_lt_zero q)⟩
    | none =>
      rw [hf] at h
      have hb1 : (b + 1) &&& (2 ^ t - 1) = (b + 1) % 2 ^ t :=
        Nat.and_pow_two_sub_one_eq_mod _ _
      rw [hb1] at h
      have hshift : ∀ q, ((b + 1) % 2 ^ t + q) % 2 ^ t = (b + (q + 1)) % 2 ^ t := by
        intro q
        rw [Nat.mod_add_mod]
        ring_nf
      obtain ⟨d, hd, hfd, hnone⟩ := ih ((b + 1) % 2 ^ t) (Nat.mod_lt _ (Nat.two_pow_pos t)) h
      refine ⟨d + 1, Nat.succ_lt_succ hd, ?_, ?_⟩
      · rw [← hshift d]
        exact hfd
      · intro q hq
        match q, hq with
        | 0, _ => rwa [Nat.add_zero, Nat.mod_eq_of_lt hb]
        | q + 1, hq =>
          rw [← hshift q]
          exact hnone q (Nat.lt_of_succ_lt_succ hq)

/-- If the loop body accepts at least one in-range bucket, BUCKET_EACH with
one unit of fuel per bucket returns. -/
theorem bucket_each_ex_some {α : Type} (f : Nat → Option α) (t b : Nat) (hb : b < 2 ^ t)
    (hex : ∃ e < 2 ^ t, f e ≠ none) :
    ∃ r, bucket_each f (2 ^ t - 1) (2 ^ t) b = some r := by
  obtain ⟨e, he, hfe⟩ := hex
  have hP : ∃ q, (f ((b + q) % 2 ^ t)).isSome = true := by
    refine ⟨(e + 2 ^ t - b) % 2 ^ t, ?_⟩
    have hle : b ≤ e + 2 ^ t := le_trans hb.le (Nat.le_add_left _ _)
    have heq : (b + (e + 2 ^ t - b) % 2 ^ t) % 2 ^ t = e := by
      rw [Nat.add_mod_mod, show b + (e + 2 ^ t - b) = e + 2 ^ t by omega,
        Nat.add_mod_right, Nat.mod_eq_of_lt he]
    rw [heq]
    exact Option.isSome_iff_ne_none.mpr hfe
  have hd : (f ((b + Nat.find hP) % 2 ^ t)).isSome = true := Nat.find_spec hP
  obtain ⟨r, hr⟩ := Option.isSome_iff_exists.mp hd
  refine ⟨r, bucket_each_of_first f t r (Nat.find hP) (2 ^ t) b hb ?_ ?_ hr⟩
  · calc Nat.find hP ≤ (e + 2 ^ t - b) % 2 ^ t := Nat.find_min' hP (by
          have hle : b ≤ e + 2 ^ t := le_trans hb.le (Nat.le_add_left _ _)
          have heq : (b + (e + 2 ^ t - b) % 2 ^ t) % 2 ^ t = e := by
            rw [Nat.add_mod_mod, show b + (e + 2 ^ t - b) = e + 2 ^ t by omega,
              Nat.add_mod_right, Nat.mod_eq_of_lt he]
          rw [heq]
          exact Option.isSome_iff_ne_none.mpr hfe)
      _ < 2 ^ t := Nat.mod_lt _ (Nat.two_pow_pos t)
  · intro q hq
    exact Option.not_isSome_iff_eq_none.mp (Nat.find_min hP hq)

/-- Folds with pointwise-equal bodies agree. -/
theorem foldl_congr_fn {α : Type} (L : List Nat) (F G : α → Nat → α)
    (h : ∀ out i, i ∈ L → F out i = G out i) : ∀ out, L.foldl F out = L.foldl G out := by
  induction L with
  | nil => intro out; rfl
  | cons i L ih =>
    intro out
    simp only [List.foldl_cons]
    rw [h out i (List.mem_cons_self i L)]
    exact ih (fun out j hj => h out j (List.mem_cons_of_mem i hj)) (G out i)

/-- testBit of an or-accumulating fold over a list of bit indices. -/
theorem foldl_orbit_testBit (P : Nat → Prop) [DecidablePred P] :
    ∀ (L : List Nat) (out j : Nat),
      (L.foldl (fun out i => if P i then out ||| (1 <<< i) else out) out).testBit j =
        (out.testBit j || L.any (fun i => decide (P i) && decide (i = j))) := by
  intro L
  induction L with
  | nil => intro out j; simp
  | cons i L ih =>
    intro out j
    simp only [List.foldl_cons, List.any_cons, ih]
    by_cases hp : P i
    · rw [if_pos hp]
      have h1 : (1 <<< i : Nat) = 2 ^ i := by rw [Nat.shiftLeft_eq, one_mul]
      simp only [Nat.testBit_or, h1, Nat.testBit_two_pow, hp, decide_True,
        Bool.true_and, Bool.or_assoc]
    · rw [if_neg hp]
      simp [hp]

/-- Bit i of the scalar meta_match mask is set exactly when i < 16 and
metadata byte i equals the probed tag. -/
theorem meta_match_testBit (meta : List Nat) (part : Nat) (j : Nat) :
    (meta_match meta part).testBit j =
      (decide (j < 16) && decide (meta.getD j 0 = part)) := by
  have h := foldl_orbit_testBit (fun i => meta.getD i 0 = part) (List.range META_SIZE) 0 j
  rw [meta_match, h, Nat.zero_testBit, Bool.false_or, Bool.eq_iff_iff]
  simp only [List.any_eq_true, List.mem_range, Bool.and_eq_true, decide_eq_true_eq, META_SIZE]
  constructor
  · rintro ⟨i, hi, hPi, rfl⟩
    exact ⟨hi, hPi⟩
  · rintro ⟨hj, hP⟩
    exact ⟨j, hj, hP, rfl⟩

/-- C8: the SSE2 path of meta_match (one 16-lane byte compare plus movemask)
and the 16-iteration scalar fallback compute the same mask for every 16-byte
metadata array and target byte, and bit i of that mask is set exactly when
metadata byte i equals the target. -/
theorem c8_meta_match_equiv (meta : List Nat) (part : Nat)
    (_hlen : meta.length = 16) (_hbytes : ∀ x ∈ meta, x < 256) (_hpart : part < 256) :
    meta_match_sse2 meta part = meta_match meta part ∧
    ∀ i < 16, ((meta_match meta part).testBit i = true ↔ meta.getD i 0 = part) := by
  constructor
  · simp only [meta_match_sse2, Nat.shiftLeft_zero, Nat.zero_or, mm_movemask_epi8, meta_match]
    apply foldl_congr_fn
    intro out i hi
    have hi16 : i < 16 := List.mem_range.mp hi
    have hc : ((List.range 16).map (fun i => mm_cmpeq_epi8 (meta.getD i 0) part)).getD i 0
        = mm_cmpeq_epi8 (meta.getD i 0) part := by
      rw [List.getD_eq_getElem?_getD, List.getElem?_map, List.getElem?_range hi16]
      rfl
    rw [hc, mm_cmpeq_epi8]
    by_cases he : meta.getD i 0 = part
    · rw [if_pos he, if_pos he]
      rfl
    · rw [if_neg he, if_neg he]
      show out ||| ((0 >>> 7 &&& 1) <<< i) = out
      rw [show ((0 >>> 7 &&& 1 : Nat)) = 0 from rfl, Nat.zero_shiftLeft, Nat.or_zero]
  · intro i hi
    rw [meta_match_testBit]
    simp [hi]

/-- Witness for C8 at a concrete metadata pattern. -/
theorem c8_meta_match_equiv_witness :
    meta_match_sse2 metaDemo 44 = meta_match metaDemo 44 ∧
    ((meta_match metaDemo 44).testBit 4 = true ↔ metaDemo.getD 4 0 = 44) :=
  ⟨(c8_meta_match_equiv metaDemo 44 (by decide) (by decide) (by decide)).1,
   (c8_meta_match_equiv metaDemo 44 (by decide) (by decide) (by decide)).2 4 (by decide)⟩

/-- The scalar meta_match mask is a 16-bit value. -/
theorem meta_match_lt_two_pow (meta : List Nat) (part : Nat) :
    meta_match meta part < 2 ^ 16 := by
  have haux : ∀ (L : List Nat) (out : Nat), (∀ i ∈ L, i < 16) → out < 2 ^ 16 →
      L.foldl (fun out i => if meta.getD i 0 = part then out ||| (1 <<< i) else out) out
        < 2 ^ 16 := by
    intro L
    induction L with
    | nil => intro out _ hout; exact hout
    | cons i L ih =>
      intro out hL hout
      simp only [List.foldl_cons]
      apply ih _ (fun j hj => hL j (List.mem_cons_of_mem i hj))
      by_cases he : meta.getD i 0 = part
      · rw [if_pos he]
        apply Nat.or_lt_two_pow hout
        rw [Nat.shiftLeft_eq, one_mul]
        exact Nat.pow_lt_pow_right (by norm_num) (hL i (List.mem_cons_self i L))
      · rw [if_neg he]
        exact hout
  exact haux (List.range META_SIZE) 0 (fun i hi => List.mem_range.mp hi) (Nat.two_pow_pos 16)

/-- A nonzero empty-match mask yields a nonempty BITSET_EACH index list. -/
theorem setBits_ne_nil (bits : Nat) (hlt : bits < 2 ^ 16) (hne : bits ≠ 0) :
    setBits bits ≠ [] := by
  obtain ⟨i, hbit⟩ := Nat.ne_zero_implies_bit_true hne
  have hi16 : i < 16 := by
    by_contra hge
    rw [Nat.testBit_lt_two_pow (lt_of_lt_of_le hlt
      (Nat.pow_le_pow_right (by norm_num) (by omega)))] at hbit
    exact Bool.false_ne_true hbit
  exact List.ne_nil_of_mem (List.mem_filter.mpr ⟨List.mem_range.mpr hi16, hbit⟩)

/-- The insert loop body accepts any bucket that has an empty slot. -/
theorem insert_scan_ne_none (m : Hashmap) (buf : List Bucket) (part : Nat)
    (key value : Bytes) (e : Nat) (he : bucketHasEmpty (buf.getD e Bucket.junk)) :
    insert_scan m buf part key value e ≠ none := by
  intro h
  rw [insert_scan] at h
  split at h
  · exact Option.noConfusion h
  · split at h
    · next hbits => exact (setBits_ne_nil _ (meta_match_lt_two_pow _ _) he) hbits
    · exact Option.noConfusion h

/-- The set loop body accepts any bucket that has an empty slot. -/
theorem set_scan_ne_none (m : Hashmap) (buf : List Bucket) (part : Nat)
    (key value : Bytes) (e : Nat) (he : bucketHasEmpty (buf.getD e Bucket.junk)) :
    set_scan m buf part key value e ≠ none := by
  intro h
  rw [set_scan] at h
  split at h
  · exact Option.noConfusion h
  · split at h
    · next hbits => exact (setBits_ne_nil _ (meta_match_lt_two_pow _ _) he) hbits
    · exact Option.noConfusion h

/-- The get loop body accepts any bucket that has an empty slot. -/
theorem get_scan_ne_none (m : Hashmap) (buf : List Bucket) (part : Nat)
    (key : Bytes) (e : Nat) (he : bucketHasEmpty (buf.getD e Bucket.junk)) :
    get_scan m buf part key e ≠ none := by
  intro h
  rw [get_scan] at h
  split at h
  · exact Option.noConfusion h
  · split at h
    · exact Option.noConfusion h
    · next hcond => exact hcond he

/-- The remove loop body accepts any bucket that has an empty slot. -/
theorem remove_scan_ne_none (m : Hashmap) (buf : List Bucket) (part : Nat)
    (key : Bytes) (e : Nat) (he : bucketHasEmpty (buf.getD e Bucket.junk)) :
    remove_scan m buf part key e ≠ none := by
  intro h
  rw [remove_scan] at h
  split at h
  · exact Option.noConfusion h
  · split at h
    · exact Option.noConfusion h
    · next hcond => exact hcond he

/-- The fast-insert loop body accepts any bucket that has an empty slot. -/
theorem fast_insert_scan_ne_none (buf : List Bucket) (part : Nat)
    (key value : Bytes) (e : Nat) (he : bucketHasEmpty (buf.getD e Bucket.junk)) :
    fast_insert_scan buf part key value e ≠ none := by
  intro h
  rw [fast_insert_scan] at h
  split at h
  · next hbits => exact (setBits_ne_nil _ (meta_match_lt_two_pow _ _) he) hbits
  · exact Option.noConfusion h

/-- A zero-initialised fresh bucket has empty slots. -/
theorem fresh_bucket_has_empty (k v : Nat) : bucketHasEmpty (Bucket.fresh k v) := by
  show meta_match (List.replicate 16 0) META_EMPTY ≠ 0
  decide

/-- The capacity of a map with an allocated buffer. -/
theorem capacity_of_buffer (m : Hashmap) (buf : List Bucket) (hbuf : m.buffer = some buf) :
    hashmap__capacity m = 2 ^ m.capacityLog2 := by
  simp [hashmap__capacity, hbuf]

/-- The bucket mask of a map with an allocated buffer and capacityLog2 ≥ 4. -/
theorem get_mask_of_buffer (m : Hashmap) (buf : List Bucket) (hbuf : m.buffer = some buf)
    (hlog : 4 ≤ m.capacityLog2) :
    get_mask m = 2 ^ (m.capacityLog2 - 4) - 1 := by
  rw [get_mask, capacity_of_buffer m buf hbuf, META_SIZE, mask_two_pow _ hlog]

/-- With a healthy allocator and growth fuel, hashmap__reserve on a
well-shaped map returns: either ITER_ENOMEM with the map untouched (the
inverted-check path of grow_not_empty), or ITER_OK with a buffer that kept
its shape, its entries' count and at least one empty slot. -/
theorem reserve_ret_shapes (A : Oracle) (gas : Nat) (m : Hashmap) (buf : List Bucket)
    (calls n : Nat)
    (hA : ∀ i, A i = true) (hgas : 1 ≤ gas) (hbuf : m.buffer = some buf)
    (hlen : buf.length = 2 ^ (m.capacityLog2 - 4))
    (hlog : 5 ≤ m.capacityLog2) (hlog2 : m.capacityLog2 < 60)
    (hempty : hasEmptySlot buf) :
    (∃ calls', hashmap__reserve A gas m calls n = .ret ITER_ENOMEM m calls') ∨
    (∃ m' buf' calls', hashmap__reserve A gas m calls n = .ret ITER_OK m' calls' ∧
      m'.buffer = some buf' ∧
      buf'.length = 2 ^ (m'.capacityLog2 - 4) ∧
      5 ≤ m'.capacityLog2 ∧
      hasEmptySlot buf' ∧
      m'.count = m.count) := by
  by_cases hload : loadOk m.count n (hashmap__capacity m) = true
  · right
    exact ⟨m, buf, calls, by simp [hashmap__reserve, reserve_with, hload], hbuf, hlen, hlog,
      hempty, rfl⟩
  · by_cases hcnt : m.count = 0
    · right
      have hcapm : hashmap__capacity m = 2 ^ m.capacityLog2 := capacity_of_buffer m buf hbuf
      have h16 : HASHMAP_MIN ≤ 2 ^ m.capacityLog2 := by
        show (16 : Nat) ≤ 2 ^ m.capacityLog2
        calc (16 : Nat) = 2 ^ 4 := by norm_num
          _ ≤ 2 ^ m.capacityLog2 := Nat.pow_le_pow_right (by norm_num) (by omega)
      have hcap2 : max (round_pow2 (hashmap__capacity m)) HASHMAP_MIN = 2 ^ m.capacityLog2 := by
        rw [hcapm, round_pow2_two_pow]
        exact Nat.max_eq_left h16
      have hnb : 2 ^ m.capacityLog2 * 2 / META_SIZE = 2 ^ (m.capacityLog2 - 3) := by
        rw [META_SIZE, show (2 : Nat) ^ m.capacityLog2 * 2 = 2 ^ (m.capacityLog2 + 1) from
          (pow_succ 2 m.capacityLog2).symm, show (16 : Nat) = 2 ^ 4 from rfl,
          Nat.pow_div (show 4 ≤ m.capacityLog2 + 1 by omega) (show 0 < 2 by norm_num),
          show m.capacityLog2 + 1 - 4 = m.capacityLog2 - 3 by omega]
      have hload0 : loadOk 0 n (hashmap__capacity m) = false := by
        rw [← hcnt]
        exact Bool.eq_false_iff.mpr hload
      have hgrow : hashmap__reserve A gas m calls n =
          .ret ITER_OK
            { m with
              buffer := some (buf ++ List.replicate
                (2 ^ m.capacityLog2 * 2 / META_SIZE - buf.length)
                (Bucket.fresh m.ksize m.vsize))
              capacityLog2 := log2_64 (2 ^ m.capacityLog2) + 1 }
            (calls + 1) := by
        simp only [hashmap__reserve, reserve_with, hcnt, hload0, if_true,
          grow_empty, hA calls, hcap2, hbuf, Option.getD_some, Bool.false_eq_true,
          if_false]
      have hlog64 : log2_64 (2 ^ m.capacityLog2) = m.capacityLog2 :=
        log2_64_two_pow _ (by omega)
      have hfrlen : 2 ^ m.capacityLog2 * 2 / META_SIZE - buf.length =
          2 ^ (m.capacityLog2 - 3) - 2 ^ (m.capacityLog2 - 4) := by
        rw [hnb, hlen]
      have hfrpos : 1 ≤ 2 ^ (m.capacityLog2 - 3) - 2 ^ (m.capacityLog2 - 4) := by
        have h1 : 2 ^ (m.capacityLog2 - 3) = 2 * 2 ^ (m.capacityLog2 - 4) := by
          rw [← pow_succ']
          congr 1
          omega
        have h2 : 1 ≤ 2 ^ (m.capacityLog2 - 4) := Nat.one_le_two_pow
        omega
      refine ⟨_, _, calls + 1, hgrow, rfl, ?_, ?_, ?_, rfl⟩
      · have h2 : m.capacityLog2 + 1 - 4 = m.capacityLog2 - 3 := by omega
        simp only [List.length_append, List.length_replicate, hlog64, hnb, hlen, h2]
        have h1 : 2 ^ (m.capacityLog2 - 3) = 2 * 2 ^ (m.capacityLog2 - 4) := by
          rw [← pow_succ']
          congr 1
          omega
        omega
      · simp only [hlog64]
        omega
      · refine ⟨buf.length, ?_, ?_⟩
        · simp only [List.length_append, List.length_replicate, hnb, hlen]
          omega
        · rw [List.getD_eq_getElem?_getD, List.getElem?_append_right (Nat.le_refl _),
            Nat.sub_self, List.getElem?_replicate, if_pos (by rw [hnb, hlen]; omega)]
          exact fresh_bucket_has_empty _ _
    · left
      match gas, hgas with
      | gas + 1, _ =>
        refine ⟨calls + 1, ?_⟩
        simp only [hashmap__reserve, reserve_with, hload, if_false, hcnt,
          grow_not_empty, grow_empty, hA calls, if_true, Bool.false_eq_true]

/-- Membership in a BITSET_EACH index list of a meta_match mask. -/
theorem mem_setBits_meta_match (meta : List Nat) (part i : Nat) :
    i ∈ setBits (meta_match meta part) ↔ (i < 16 ∧ meta.getD i 0 = part) := by
  rw [setBits, List.mem_filter, List.mem_range, meta_match_testBit]
  constructor
  · rintro ⟨h16, hb⟩
    simp only [Bool.and_eq_true, decide_eq_true_eq] at hb
    exact hb
  · rintro ⟨h16, he⟩
    exact ⟨h16, by rw [decide_eq_true h16, decide_eq_true he]; rfl⟩

/-- An empty BITSET_EACH index list means a zero mask. -/
theorem setBits_meta_match_eq_nil (meta : List Nat) (part : Nat)
    (h : setBits (meta_match meta part) = []) : meta_match meta part = 0 := by
  apply Nat.eq_of_testBit_eq
  intro i
  rw [Nat.zero_testBit, meta_match_testBit]
  by_cases h16 : i < 16
  · by_cases he : meta.getD i 0 = part
    · exact absurd ((mem_setBits_meta_match meta part i).mpr ⟨h16, he⟩)
        (by rw [h]; exact List.not_mem_nil i)
    · rw [decide_eq_false he, Bool.and_false]
  · rw [decide_eq_false h16, Bool.false_and]

/-- A bucket with no empty slot, slotwise. -/
theorem bucketFull_iff (bk : Bucket) :
    bucketFull bk ↔ ∀ i < 16, bk.meta.getD i 0 ≠ META_EMPTY := by
  constructor
  · intro h i h16 he
    have hb : (meta_match bk.meta META_EMPTY).testBit i = true := by
      rw [meta_match_testBit, decide_eq_true h16, decide_eq_true he]
      rfl
    rw [bucketFull] at h
    rw [h, Nat.zero_testBit] at hb
    exact Bool.false_ne_true hb
  · intro h
    rw [bucketFull]
    apply Nat.eq_of_testBit_eq
    intro i
    rw [Nat.zero_testBit, meta_match_testBit]
    by_cases h16 : i < 16
    · rw [decide_eq_false (h i h16), Bool.and_false]
    · rw [decide_eq_false h16, Bool.false_and]

/-- The stored tag is never a sentinel: meta_part is at least 2. -/
theorem meta_part_ge_two (h : Nat) : 2 ≤ meta_part h := by
  rw [meta_part]
  rcases Nat.lt_or_ge (h % 256) 2 with hlt | hge
  · interval_cases hp : h % 256 <;> simp [META_EMPTY, META_TOMB]
  · have h0 : ¬ (h % 256 = META_EMPTY) := by rw [META_EMPTY]; omega
    have h1 : ¬ (h % 256 = META_TOMB) := by rw [META_TOMB]; omega
    simp only [h0, if_false, h1]
    omega

/-- Walk positions are injective below the bucket count. -/
theorem walk_pos_inj (b q d n : Nat) (hq : q < n) (hd : d < n)
    (h : (b + q) % n = (b + d) % n) : q = d := by
  have hmodeq : Nat.ModEq n (b + q) (b + d) := h
  have h2 : Nat.ModEq n q d := Nat.ModEq.add_left_cancel (Nat.ModEq.refl b) hmodeq
  have h3 : q % n = d % n := h2
  rwa [Nat.mod_eq_of_lt hq, Nat.mod_eq_of_lt hd] at h3

/-- find? of a list returns its unique satisfying element. -/
theorem find?_eq_some_of_unique {α : Type} [DecidableEq α] (l : List α) (p : α → Bool)
    (x : α) (hx : x ∈ l) (hp : p x = true) (huniq : ∀ y ∈ l, p y = true → y = x) :
    l.find? p = some x := by
  induction l with
  | nil => exact absurd hx (List.not_mem_nil x)
  | cons a l ih =>
    rw [List.find?_cons]
    by_cases ha : p a = true
    · rw [ha]
      rw [huniq a (List.mem_cons_self a l) ha]
    · rw [Bool.eq_false_iff.mpr ha]
      rcases List.mem_cons.mp hx with rfl | hmem
      · exact absurd hp ha
      · exact ih hmem (fun y hy hpy => huniq y (List.mem_cons_of_mem a hy) hpy)

/-- compare_key depends only on the strategy fields. -/
theorem compare_key_congr (m m' : Hashmap) (hh : m'.hash = m.hash)
    (hr : m'.hasher = m.hasher) (x y : Bytes) :
    compare_key m' x y = compare_key m x y := by
  rw [compare_key, compare_key, hh, hr]

/-- get_hash depends only on the strategy fields. -/
theorem get_hash_congr (m m' : Hashmap) (hh : m'.hash = m.hash)
    (hr : m'.hasher = m.hasher) (x : Bytes) :
    get_hash m' x = get_hash m x := by
  rw [get_hash, get_hash, hh, hr]

/-- getD after set at the same (in-range) index. -/
theorem getD_set_self {α : Type} (l : List α) (i : Nat) (a d : α) (h : i < l.length) :
    (l.set i a).getD i d = a := by
  rw [List.getD_eq_getElem?_getD, List.getElem?_set_self h]
  rfl

/-- getD after set at a different index. -/
theorem getD_set_ne {α : Type} (l : List α) (i j : Nat) (a d : α) (h : i ≠ j) :
    (l.set i a).getD j d = l.getD j d := by
  rw [List.getD_eq_getElem?_getD, List.getD_eq_getElem?_getD, List.getElem?_set_ne h]

/-- The slot arrays keep their sizes under a claim write. -/
theorem bucketWF_claim (bk : Bucket) (i p : Nat) (k v : Bytes) (h : BucketWF bk) :
    BucketWF
      { meta := bk.meta.set i p, keys := bk.keys.set i k, vals := bk.vals.set i v } :=
  ⟨by rw [List.length_set]; exact h.metaLen, by rw [List.length_set]; exact h.keysLen,
    by rw [List.length_set]; exact h.valsLen⟩

/-- The slot arrays keep their sizes under a metadata write. -/
theorem bucketWF_setMeta (bk : Bucket) (i p : Nat) (h : BucketWF bk) :
    BucketWF { bk with meta := bk.meta.set i p } :=
  ⟨by rw [List.length_set]; exact h.metaLen, h.keysLen, h.valsLen⟩

/-- Inversion of a rejecting insert scan: no key-equal tag match and no
empty slot in the bucket. -/
theorem insert_scan_none_spec (m : Hashmap) (buf : List Bucket) (part : Nat)
    (key value : Bytes) (b : Nat)
    (h : insert_scan m buf part key value b = none) :
    (∀ i < 16, (buf.getD b Bucket.junk).meta.getD i 0 = part →
      compare_key m key ((buf.getD b Bucket.junk).keys.getD i []) ≠ 0) ∧
    bucketFull (buf.getD b Bucket.junk) := by
  rw [insert_scan] at h
  split at h
  · exact Option.noConfusion h
  · next hany =>
    refine ⟨?_, ?_⟩
    · intro i h16 htag hcmp
      exact hany (List.any_eq_true.mpr
        ⟨i, (mem_setBits_meta_match _ part i).mpr ⟨h16, htag⟩, by rw [hcmp]; rfl⟩)
    · split at h
      · next hnil => exact setBits_meta_match_eq_nil _ _ hnil
      · exact Option.noConfusion h

/-- Inversion of a claiming insert scan: no key-equal tag match, and the
claimed slot was truly empty. -/
theorem insert_scan_claim_spec (m : Hashmap) (buf : List Bucket) (part : Nat)
    (key value : Bytes) (b : Nat) (buf' : List Bucket)
    (h : insert_scan m buf part key value b = some (some buf')) :
    (∀ i < 16, (buf.getD b Bucket.junk).meta.getD i 0 = part →
      compare_key m key ((buf.getD b Bucket.junk).keys.getD i []) ≠ 0) ∧
    ∃ i, i < 16 ∧ (buf.getD b Bucket.junk).meta.getD i 0 = META_EMPTY ∧
      buf' = claimSlot buf b i part key value := by
  rw [insert_scan] at h
  split at h
  · next hany =>
    exact absurd h (by simp)
  · next hany =>
    refine ⟨?_, ?_⟩
    · intro i h16 htag hcmp
      exact hany (List.any_eq_true.mpr
        ⟨i, (mem_setBits_meta_match _ part i).mpr ⟨h16, htag⟩, by rw [hcmp]; rfl⟩)
    · split at h
      · exact Option.noConfusion h
      · next i is hcons =>
        have hi : i ∈ setBits (meta_match (buf.getD b Bucket.junk).meta META_EMPTY) := by
          rw [hcons]
          exact List.mem_cons_self i is
        obtain ⟨h16, hempty⟩ := (mem_setBits_meta_match _ _ i).mp hi
        injection h with h
        injection h with h
        exact ⟨i, h16, hempty, h.symm⟩

/-- Inversion of an EEXIST insert scan: some slot holds a key-equal match. -/
theorem insert_scan_exist_spec (m : Hashmap) (buf : List Bucket) (part : Nat)
    (key value : Bytes) (b : Nat)
    (h : insert_scan m buf part key value b = some none) :
    ∃ i < 16, (buf.getD b Bucket.junk).meta.getD i 0 = part ∧
      compare_key m key ((buf.getD b Bucket.junk).keys.getD i []) = 0 := by
  rw [insert_scan] at h
  split at h
  · next hany =>
    obtain ⟨i, hi, hp⟩ := List.any_eq_true.mp hany
    obtain ⟨h16, htag⟩ := (mem_setBits_meta_match _ part i).mp hi
    exact ⟨i, h16, htag, by
      have := of_decide_eq_true (by exact hp)
      exact eq_of_beq hp⟩
  · split at h
    · exact Option.noConfusion h
    · exact absurd h (by simp)

/-- Inversion of a rejecting get scan: no key-equal tag match and no empty
slot in the bucket. -/
theorem get_scan_none_spec (m : Hashmap) (buf : List Bucket) (part : Nat)
    (key : Bytes) (b : Nat)
    (h : get_scan m buf part key b = none) :
    (∀ i < 16, (buf.getD b Bucket.junk).meta.getD i 0 = part →
      compare_key m key ((buf.getD b Bucket.junk).keys.getD i []) ≠ 0) ∧
    bucketFull (buf.getD b Bucket.junk) := by
  rw [get_scan] at h
  split at h
  · exact Option.noConfusion h
  · next hfind =>
    refine ⟨?_, ?_⟩
    · intro i h16 htag hcmp
      have hnp := List.find?_eq_none.mp hfind i
        ((mem_setBits_meta_match _ part i).mpr ⟨h16, htag⟩)
      rw [hcmp] at hnp
      exact hnp rfl
    · split at h
      · exact Option.noConfusion h
      · next hne => exact of_not_not hne

/-- Inversion of a successful get scan: the value returned lives in a
key-equal tag-matching slot of the bucket. -/
theorem get_scan_some_spec (m : Hashmap) (buf : List Bucket) (part : Nat)
    (key : Bytes) (b : Nat) (w : Bytes)
    (h : get_scan m buf part key b = some (some w)) :
    ∃ i, i < 16 ∧ (buf.getD b Bucket.junk).meta.getD i 0 = part ∧
      compare_key m key ((buf.getD b Bucket.junk).keys.getD i []) = 0 ∧
      w = (buf.getD b Bucket.junk).vals.getD i [] := by
  rw [get_scan] at h
  split at h
  · next i hfind =>
    obtain ⟨h16, htag⟩ := (mem_setBits_meta_match _ part i).mp
      (List.mem_of_find?_eq_some hfind)
    have hp := List.find?_some hfind
    injection h with h
    injection h with h
    exact ⟨i, h16, htag, eq_of_beq hp, h.symm⟩
  · split at h
    · exact absurd h (by simp)
    · exact Option.noConfusion h

/-- Inversion of a rejecting remove scan: no key-equal tag match and no empty
slot in the bucket. -/
theorem remove_scan_none_spec (m : Hashmap) (buf : List Bucket) (part : Nat)
    (key : Bytes) (b : Nat)
    (h : remove_scan m buf part key b = none) :
    (∀ i < 16, (buf.getD b Bucket.junk).meta.getD i 0 = part →
      compare_key m key ((buf.getD b Bucket.junk).keys.getD i []) ≠ 0) ∧
    bucketFull (buf.getD b Bucket.junk) := by
  rw [remove_scan] at h
  split at h
  · exact Option.noConfusion h
  · next hfind =>
    refine ⟨?_, ?_⟩
    · intro i h16 htag hcmp
      have hnp := List.find?_eq_none.mp hfind i
        ((mem_setBits_meta_match _ part i).mpr ⟨h16, htag⟩)
      rw [hcmp] at hnp
      exact hnp rfl
    · split at h
      · exact Option.noConfusion h
      · next hne => exact of_not_not hne

/-- Inversion of a successful remove scan: the first key-equal tag match is
tombstoned, everything else is untouched. -/
theorem remove_scan_found_spec (m : Hashmap) (buf : List Bucket) (part : Nat)
    (key : Bytes) (b : Nat) (buf2 : List Bucket)
    (h : remove_scan m buf part key b = some (some buf2)) :
    ∃ i, i < 16 ∧ (buf.getD b Bucket.junk).meta.getD i 0 = part ∧
      compare_key m key ((buf.getD b Bucket.junk).keys.getD i []) = 0 ∧
      buf2 = buf.set b { buf.getD b Bucket.junk with
        meta := (buf.getD b Bucket.junk).meta.set i META_TOMB } := by
  rw [remove_scan] at h
  split at h
  · next i hfind =>
    obtain ⟨h16, htag⟩ := (mem_setBits_meta_match _ part i).mp
      (List.mem_of_find?_eq_some hfind)
    have hp := List.find?_some hfind
    injection h with h
    injection h with h
    exact ⟨i, h16, htag, eq_of_beq hp, h.symm⟩
  · split at h
    · exact absurd h (by simp)
    · exact Option.noConfusion h

/-- Inversion of a successful insert when the reserve step is a no-op: the
probe claimed an empty slot, the count went up by one, nothing else moved. -/
theorem insert_ok_noGrowth_spec (A : Oracle) (gas : Nat) (m : Hashmap)
    (calls : Nat) (key value : Bytes) (s1 : Hashmap) (calls1 : Nat)
    (hload : loadOk m.count 1 (hashmap__capacity m) = true)
    (h : hashmap__insert A gas m calls (some key) (some value) =
      .ret ITER_OK s1 calls1) :
    ∃ buf buf1, m.buffer = some buf ∧
      probe_insert m buf (get_mask m) (meta_part (get_hash m key)) key value
        buf.length (get_hash m key &&& get_mask m) = some (some buf1) ∧
      s1 = { m with buffer := some buf1, count := m.count + 1 } ∧
      calls1 = calls := by
  have hres : hashmap__reserve A gas m calls 1 = .ret ITER_OK m calls := by
    rw [hashmap__reserve, reserve_with]
    simp only [hload, if_true]
  rw [hashmap__insert, hres] at h
  simp only [ne_eq, not_true_eq_false, if_false] at h
  rcases hbuf : m.buffer with _ | buf
  · rw [hbuf] at h
    exact Res.noConfusion h
  · rw [hbuf] at h
    simp only at h
    rcases hp : probe_insert m buf (get_mask m) (meta_part (get_hash m key)) key value
        buf.length (get_hash m key &&& get_mask m) with _ | _ | buf1
    · rw [hp] at h
      exact Res.noConfusion h
    · rw [hp] at h
      injection h with hcode _ _
      exact absurd hcode (by simp [ITER_EEXIST, ITER_OK])
    · rw [hp] at h
      injection h with _ hs hc
      exact ⟨buf, buf1, rfl, hp, hs.symm, hc.symm⟩

/-- Inversion of a successful remove: the probe tombstoned a slot, the count
went down by one, nothing else moved. -/
theorem remove_ok_spec (m : Hashmap) (calls : Nat) (key : Bytes)
    (s2 : Hashmap) (calls2 : Nat)
    (h : hashmap__remove m calls (some key) = .ret ITER_OK s2 calls2) :
    m.count ≠ 0 ∧ ∃ buf buf2, m.buffer = some buf ∧
      probe_remove m buf (get_mask m) (meta_part (get_hash m key)) key
        buf.length (get_hash m key &&& get_mask m) = some (some buf2) ∧
      s2 = { m with buffer := some buf2, count := m.count - 1 } ∧
      calls2 = calls := by
  rw [hashmap__remove] at h
  by_cases hcnt : m.count = 0
  · rw [if_pos hcnt] at h
    injection h with hcode _ _
    exact absurd hcode (by simp [ITER_ENOENT, ITER_OK])
  · rw [if_neg hcnt] at h
    rcases hbuf : m.buffer with _ | buf
    · rw [hbuf] at h
      exact Res.noConfusion h
    · rw [hbuf] at h
      simp only at h
      rcases hp : probe_remove m buf (get_mask m) (meta_part (get_hash m key)) key
          buf.length (get_hash m key &&& get_mask m) with _ | _ | buf2
      · rw [hp] at h
        exact Res.noConfusion h
      · rw [hp] at h
        injection h with hcode _ _
        exact absurd hcode (by simp [ITER_ENOENT, ITER_OK])
      · rw [hp] at h
        injection h with _ hs hc
        exact ⟨hcnt, buf, buf2, rfl, hp, hs.symm, hc.symm⟩

/-- A well-formed map with an allocated buffer has a well-formed buffer. -/
theorem WF_some (m : Hashmap) (buf : List Bucket) (hbuf : m.buffer = some buf)
    (h : WF m) : BufWF m buf := by
  unfold WF at h
  rw [hbuf] at h
  exact h

/-- The default strategy (byte equality, any hasher) is lawful. -/
theorem default_strategy_lawful (m : Hashmap) (h : m.hash = none) :
    StrategyLawful m := by
  constructor
  · intro x
    simp [compare_key, h]
  · intro x y hxy
    simp only [compare_key, h] at hxy
    by_cases hxy' : x = y
    · rw [hxy']
    · rw [if_neg hxy'] at hxy
      exact absurd hxy one_ne_zero

/-- Overwriting the bucket a claim wrote overwrites the original bucket. -/
theorem claimSlot_set (buf : List Bucket) (b i part : Nat) (key value : Bytes)
    (bk : Bucket) : (claimSlot buf b i part key value).set b bk = buf.set b bk := by
  rw [claimSlot]
  apply List.set_set

/-- The claim step keeps the bucket count. -/
theorem claimSlot_length (buf : List Bucket) (b i part : Nat) (key value : Bytes) :
    (claimSlot buf b i part key value).length = buf.length := by
  rw [claimSlot]
  apply List.length_set

/-- The get loop body only consults the map through compare_key. -/
theorem get_scan_congr (m m' : Hashmap)
    (h : ∀ x y, compare_key m' x y = compare_key m x y)
    (buf : List Bucket) (part : Nat) (key : Bytes) (b : Nat) :
    get_scan m' buf part key b = get_scan m buf part key b := by
  simp only [get_scan, h]

/-- The remove loop body only consults the map through compare_key. -/
theorem remove_scan_congr (m m' : Hashmap)
    (h : ∀ x y, compare_key m' x y = compare_key m x y)
    (buf : List Bucket) (part : Nat) (key : Bytes) (b : Nat) :
    remove_scan m' buf part key b = remove_scan m buf part key b := by
  simp only [remove_scan, h]

/-- The insert loop body only consults the map through compare_key. -/
theorem insert_scan_congr (m m' : Hashmap)
    (h : ∀ x y, compare_key m' x y = compare_key m x y)
    (buf : List Bucket) (part : Nat) (key value : Bytes) (b : Nat) :
    insert_scan m' buf part key value b = insert_scan m buf part key value b := by
  simp only [insert_scan, h]

/-- Forward computation of a rejecting remove scan. -/
theorem remove_scan_eq_none (m : Hashmap) (buf : List Bucket) (part : Nat)
    (key : Bytes) (b : Nat)
    (hno : ∀ i < 16, (buf.getD b Bucket.junk).meta.getD i 0 = part →
      compare_key m key ((buf.getD b Bucket.junk).keys.getD i []) ≠ 0)
    (hfull : bucketFull (buf.getD b Bucket.junk)) :
    remove_scan m buf part key b = none := by
  have hfind : (setBits (meta_match (buf.getD b Bucket.junk).meta part)).find?
      (fun i => compare_key m key ((buf.getD b Bucket.junk).keys.getD i []) == 0) =
      none := by
    rw [List.find?_eq_none]
    intro i hi
    obtain ⟨h16, htag⟩ := (mem_setBits_meta_match _ _ _).mp hi
    simp only [beq_iff_eq]
    exact hno i h16 htag
  simp only [remove_scan, hfind]
  rw [if_neg (show ¬(meta_match (buf.getD b Bucket.junk).meta META_EMPTY ≠ 0) from
    not_not.mpr hfull)]

/-- Forward computation of a successful remove scan at the unique key-equal
tag match. -/
theorem remove_scan_eq_found (m : Hashmap) (buf : List Bucket) (part : Nat)
    (key : Bytes) (b i : Nat) (h16 : i < 16)
    (htag : (buf.getD b Bucket.junk).meta.getD i 0 = part)
    (heq : compare_key m key ((buf.getD b Bucket.junk).keys.getD i []) = 0)
    (huniq : ∀ j < 16, (buf.getD b Bucket.junk).meta.getD j 0 = part →
      compare_key m key ((buf.getD b Bucket.junk).keys.getD j []) = 0 → j = i) :
    remove_scan m buf part key b = some (some (buf.set b
      { buf.getD b Bucket.junk with
        meta := (buf.getD b Bucket.junk).meta.set i META_TOMB })) := by
  have hfind : (setBits (meta_match (buf.getD b Bucket.junk).meta part)).find?
      (fun j => compare_key m key ((buf.getD b Bucket.junk).keys.getD j []) == 0) =
      some i := by
    apply find?_eq_some_of_unique
    · exact (mem_setBits_meta_match _ _ _).mpr ⟨h16, htag⟩
    · simp only [beq_iff_eq]
      exact heq
    · intro y hy hpy
      obtain ⟨hy16, hytag⟩ := (mem_setBits_meta_match _ _ _).mp hy
      exact huniq y hy16 hytag (by simpa using hpy)
  simp only [remove_scan, hfind]

/-- Forward computation of a rejecting get scan. -/
theorem get_scan_eq_none (m : Hashmap) (buf : List Bucket) (part : Nat)
    (key : Bytes) (b : Nat)
    (hno : ∀ i < 16, (buf.getD b Bucket.junk).meta.getD i 0 = part →
      compare_key m key ((buf.getD b Bucket.junk).keys.getD i []) ≠ 0)
    (hfull : bucketFull (buf.getD b Bucket.junk)) :
    get_scan m buf part key b = none := by
  have hfind : (setBits (meta_match (buf.getD b Bucket.junk).meta part)).find?
      (fun i => compare_key m key ((buf.getD b Bucket.junk).keys.getD i []) == 0) =
      none := by
    rw [List.find?_eq_none]
    intro i hi
    obtain ⟨h16, htag⟩ := (mem_setBits_meta_match _ _ _).mp hi
    simp only [beq_iff_eq]
    exact hno i h16 htag
  simp only [get_scan, hfind]
  rw [if_neg (show ¬(meta_match (buf.getD b Bucket.junk).meta META_EMPTY ≠ 0) from
    not_not.mpr hfull)]

/-- Forward computation of a successful get scan at the unique key-equal tag
match. -/
theorem get_scan_eq_found (m : Hashmap) (buf : List Bucket) (part : Nat)
    (key : Bytes) (b i : Nat) (h16 : i < 16)
    (htag : (buf.getD b Bucket.junk).meta.getD i 0 = part)
    (heq : compare_key m key ((buf.getD b Bucket.junk).keys.getD i []) = 0)
    (huniq : ∀ j < 16, (buf.getD b Bucket.junk).meta.getD j 0 = part →
      compare_key m key ((buf.getD b Bucket.junk).keys.getD j []) = 0 → j = i) :
    get_scan m buf part key b =
      some (some ((buf.getD b Bucket.junk).vals.getD i [])) := by
  have hfind : (setBits (meta_match (buf.getD b Bucket.junk).meta part)).find?
      (fun j => compare_key m key ((buf.getD b Bucket.junk).keys.getD j []) == 0) =
      some i := by
    apply find?_eq_some_of_unique
    · exact (mem_setBits_meta_match _ _ _).mpr ⟨h16, htag⟩
    · simp only [beq_iff_eq]
      exact heq
    · intro y hy hpy
      obtain ⟨hy16, hytag⟩ := (mem_setBits_meta_match _ _ _).mp hy
      exact huniq y hy16 hytag (by simpa using hpy)
  simp only [get_scan, hfind]

/-- Forward computation of a rejecting insert scan. -/
theorem insert_scan_eq_none (m : Hashmap) (buf : List Bucket) (part : Nat)
    (key value : Bytes) (b : Nat)
    (hno : ∀ i < 16, (buf.getD b Bucket.junk).meta.getD i 0 = part →
      compare_key m key ((buf.getD b Bucket.junk).keys.getD i []) ≠ 0)
    (hfull : bucketFull (buf.getD b Bucket.junk)) :
    insert_scan m buf part key value b = none := by
  have hcond : ¬(((setBits (meta_match (buf.getD b Bucket.junk).meta part)).any
      (fun i => compare_key m key ((buf.getD b Bucket.junk).keys.getD i []) == 0)) =
      true) := by
    intro hany
    obtain ⟨j, hjmem, hjp⟩ := List.any_eq_true.mp hany
    obtain ⟨hj16, hjtag⟩ := (mem_setBits_meta_match _ _ _).mp hjmem
    exact hno j hj16 hjtag (by simpa using hjp)
  have hnil : setBits (meta_match (buf.getD b Bucket.junk).meta META_EMPTY) = [] := by
    rw [show meta_match (buf.getD b Bucket.junk).meta META_EMPTY = 0 from hfull]
    rfl
  simp only [insert_scan]
  rw [if_neg hcond]
  simp only [hnil]

/-- Forward computation of a claiming insert scan: with no key-equal tag
match, the head of the empty-slot bit list is claimed. -/
theorem insert_scan_eq_claim (m : Hashmap) (buf : List Bucket) (part : Nat)
    (key value : Bytes) (b i : Nat) (rest : List Nat)
    (hno : ∀ j < 16, (buf.getD b Bucket.junk).meta.getD j 0 = part →
      compare_key m key ((buf.getD b Bucket.junk).keys.getD j []) ≠ 0)
    (hcons : setBits (meta_match (buf.getD b Bucket.junk).meta META_EMPTY) =
      i :: rest) :
    insert_scan m buf part key value b =
      some (some (claimSlot buf b i part key value)) := by
  have hcond : ¬(((setBits (meta_match (buf.getD b Bucket.junk).meta part)).any
      (fun j => compare_key m key ((buf.getD b Bucket.junk).keys.getD j []) == 0)) =
      true) := by
    intro hany
    obtain ⟨j, hjmem, hjp⟩ := List.any_eq_true.mp hany
    obtain ⟨hj16, hjtag⟩ := (mem_setBits_meta_match _ _ _).mp hjmem
    exact hno j hj16 hjtag (by simpa using hjp)
  simp only [insert_scan]
  rw [if_neg hcond]
  simp only [hcons]

/-- The key invariant behind tombstone correctness: a successful distinct-key
insert probe guarantees that no slot anywhere in the buffer holds the key's
tag together with a key-equal entry — earlier walk buckets were scanned
directly, and the probe-order invariant (goodSlot) excludes later ones. -/
theorem insert_probe_no_eq (m : Hashmap) (buf : List Bucket) (t : Nat)
    (K v : Bytes) (buf1 : List Bucket)
    (hlen : buf.length = 2 ^ t)
    (hlaw : StrategyLawful m)
    (hfind : ∀ b < buf.length, ∀ i < 16, occupiedAt buf b i → goodSlot m buf b i)
    (hp : bucket_each (insert_scan m buf (meta_part (get_hash m K)) K v)
      (2 ^ t - 1) buf.length (get_hash m K % 2 ^ t) = some (some buf1)) :
    noEqSlot m buf K := by
  intro b hb j hj htag hcmp
  have hocc : occupiedAt buf b j := by
    show 2 ≤ _
    rw [htag]
    exact meta_part_ge_two _
  have hg := hfind b hb j hj hocc
  unfold goodSlot at hg
  obtain ⟨htag', p, hpn, hbp, hfull⟩ := hg
  have hH : get_hash m ((buf.getD b Bucket.junk).keys.getD j []) = get_hash m K :=
    (hlaw.2 K _ hcmp).symm
  rw [hH] at hbp hfull
  obtain ⟨d, hd, hclaim, hnone⟩ := bucket_each_reaches _ t _ buf.length
    (get_hash m K % 2 ^ t) (Nat.mod_lt _ (Nat.two_pow_pos t)) hp
  obtain ⟨hnoEq_c, i, hi16, hiE, _⟩ := insert_scan_claim_spec m buf _ K v _ buf1 hclaim
  have halign : ∀ x, (get_hash m K + x) % buf.length =
      (get_hash m K % 2 ^ t + x) % 2 ^ t := by
    intro x
    rw [hlen, Nat.mod_add_mod]
  rcases lt_trichotomy p d with hlt | heqd | hgt
  · have h0 := insert_scan_none_spec m buf _ K v _ (hnone p hlt)
    have hb' : b = (get_hash m K % 2 ^ t + p) % 2 ^ t := by rw [hbp, halign]
    exact h0.1 j hj (by rw [← hb']; exact htag) (by rw [← hb']; exact hcmp)
  · have hb' : b = (get_hash m K % 2 ^ t + d) % 2 ^ t := by rw [hbp, heqd, halign]
    exact hnoEq_c j hj (by rw [← hb']; exact htag) (by rw [← hb']; exact hcmp)
  · have hfc : bucketFull
        (buf.getD ((get_hash m K % 2 ^ t + d) % 2 ^ t) Bucket.junk) := by
      rw [← halign d]
      exact hfull d hgt
    exact (bucketFull_iff _).mp hfc i hi16 hiE

/-- Forward assembly of a successful insert when the reserve step is a
no-op. -/
theorem insert_ok_of_probe (A : Oracle) (gas : Nat) (m : Hashmap) (calls : Nat)
    (key value : Bytes) (buf buf' : List Bucket)
    (hload : loadOk m.count 1 (hashmap__capacity m) = true)
    (hbuf : m.buffer = some buf)
    (hp : probe_insert m buf (get_mask m) (meta_part (get_hash m key)) key value
      buf.length (get_hash m key &&& get_mask m) = some (some buf')) :
    hashmap__insert A gas m calls (some key) (some value) =
      .ret ITER_OK { m with buffer := some buf', count := m.count + 1 } calls := by
  have hres : hashmap__reserve A gas m calls 1 = .ret ITER_OK m calls := by
    rw [hashmap__reserve, reserve_with]
    simp only [hload, if_true]
  rw [hashmap__insert, hres]
  simp only [ne_eq, not_true_eq_false, if_false]
  rw [hbuf]
  simp only
  rw [hp]

/-- Forward assembly of a get through the probe walk. -/
theorem get_some_of_probe (m : Hashmap) (key : Bytes) (buf : List Bucket)
    (r : Option Bytes)
    (hcnt : m.count ≠ 0) (hbuf : m.buffer = some buf)
    (hp : probe_get m buf (get_mask m) (meta_part (get_hash m key)) key buf.length
      (get_hash m key &&& get_mask m) = some r) :
    hashmap__get m (some key) = .ptr r := by
  rw [hashmap__get]
  rw [if_neg hcnt]
  rw [hbuf]
  simp only
  rw [hp]

/-- C3 counterexample: a state reachable through the public API — one live
entry, every one of the 32 slots occupied or tombstoned by insert/remove
churn, live count far below the load threshold — on which hashmap__insert
(and hashmap__set) never terminates: the probe loop returns `none` for every
fuel, so the C BUCKET_EACH loop cycles through the tombstoned buckets
forever. -/
theorem c3_cx_insert_never_returns :
    Reachable exhausted ∧
    hashmap__count exhausted = 1 ∧
    hashmap__capacity exhausted = 32 ∧
    loadOk (hashmap__count exhausted) 1 (hashmap__capacity exhausted) = true ∧
    (∀ fuel b, b < 2 →
      probe_insert exhausted (exhausted.buffer.getD []) (get_mask exhausted)
        (meta_part (get_hash exhausted [5])) [5] [7] fuel b = none) ∧
    (∀ (A : Oracle) (gas calls : Nat),
      hashmap__insert A gas exhausted calls (some [5]) (some [7]) = .hang) ∧
    (∀ (A : Oracle) (gas calls : Nat),
      hashmap__set A gas exhausted calls (some [6]) (some [8]) = .hang) := by
  refine ⟨?_, rfl, rfl, rfl, ?_, fun A gas calls => rfl, fun A gas calls => rfl⟩
  · exact reachable_execOps allocAlways 1 (Op.ins [1] [9] :: churnOps 31) mapB1 0 exhausted 1
      (Reachable.init layoutB1 mapB1 rfl) rfl
  · intro fuel b hb
    exact bucket_each_all_none
      (insert_scan exhausted (exhausted.buffer.getD [])
        (meta_part (get_hash exhausted [5])) [5] [7]) 1
      (fun b hb => by
        match b, hb with
        | 0, _ => rfl
        | 1, _ => rfl)
      fuel b hb

/-- C3 amended: on a map whose buffer still contains at least one truly
empty slot, with a healthy allocator, every public operation returns a
definite outcome: insert, set, remove and reserve return an error code and
get returns a pointer.  (Without an empty slot, insert/set/get/remove can
loop forever — see the counterexample.) -/
theorem c3_ops_return_with_empty_slot (A : Oracle) (gas : Nat) (m : Hashmap)
    (buf : List Bucket) (calls n : Nat) (key value : Bytes)
    (hA : ∀ i, A i = true) (hgas : 1 ≤ gas) (hbuf : m.buffer = some buf)
    (hlen : buf.length = 2 ^ (m.capacityLog2 - 4))
    (hlog : 5 ≤ m.capacityLog2) (hlog2 : m.capacityLog2 < 60)
    (hempty : hasEmptySlot buf) :
    (∃ code m' calls', hashmap__insert A gas m calls (some key) (some value) =
      .ret code m' calls') ∧
    (∃ code m' calls', hashmap__set A gas m calls (some key) (some value) =
      .ret code m' calls') ∧
    (∃ p, hashmap__get m (some key) = .ptr p) ∧
    (∃ code m' calls', hashmap__remove m calls (some key) = .ret code m' calls') ∧
    (∃ code m' calls', hashmap__reserve A gas m calls n = .ret code m' calls') := by
  have hres := reserve_ret_shapes A gas m buf calls 1 hA hgas hbuf hlen hlog hlog2 hempty
  have hprobe : ∀ (m' : Hashmap) (buf' : List Bucket), m'.buffer = some buf' →
      buf'.length = 2 ^ (m'.capacityLog2 - 4) → 5 ≤ m'.capacityLog2 →
      hasEmptySlot buf' →
      ∀ {α : Type} (f : Nat → Option α),
        (∀ e, e < buf'.length → bucketHasEmpty (buf'.getD e Bucket.junk) → f e ≠ none) →
        ∀ (h : Nat), ∃ r, bucket_each f (get_mask m') buf'.length (h &&& get_mask m') = some r := by
    intro m' buf' hbuf' hlen' hlog' hempty' α f hf h
    have hmask : get_mask m' = 2 ^ (m'.capacityLog2 - 4) - 1 :=
      get_mask_of_buffer m' buf' hbuf' (by omega)
    obtain ⟨e, helt, hee⟩ := hempty'
    rw [hmask, hlen']
    apply bucket_each_ex_some
    · rw [Nat.and_pow_two_sub_one_eq_mod]
      exact Nat.mod_lt _ (Nat.two_pow_pos _)
    · exact ⟨e, by omega, hf e helt hee⟩
  refine ⟨?_, ?_, ?_, ?_, ?_⟩
  · rcases hres with ⟨calls', hr⟩ | ⟨m', buf', calls', hr, hbuf', hlen', hlog', hempty', _⟩
    · refine ⟨ITER_ENOMEM, m, calls', ?_⟩
      simp only [hashmap__insert, hr]
      rw [if_pos (by decide)]
    · obtain ⟨r, hpr⟩ := hprobe m' buf' hbuf' hlen' hlog' hempty'
        (insert_scan m' buf' (meta_part (get_hash m' key)) key value)
        (fun e _ he => insert_scan_ne_none m' buf' _ key value e he)
        (get_hash m' key)
      rcases r with _ | buf''
      · refine ⟨ITER_EEXIST, m', calls', ?_⟩
        simp only [hashmap__insert, hr]
        rw [if_neg (by decide), hbuf']
        simp only [probe_insert, hpr]
      · refine ⟨ITER_OK, { m' with buffer := some buf'', count := m'.count + 1 }, calls', ?_⟩
        simp only [hashmap__insert, hr]
        rw [if_neg (by decide), hbuf']
        simp only [probe_insert, hpr]
  · rcases hres with ⟨calls', hr⟩ | ⟨m', buf', calls', hr, hbuf', hlen', hlog', hempty', _⟩
    · refine ⟨ITER_ENOMEM, m, calls', ?_⟩
      simp only [hashmap__set, hr]
      rw [if_pos (by decide)]
    · obtain ⟨⟨claimed, buf''⟩, hpr⟩ := hprobe m' buf' hbuf' hlen' hlog' hempty'
        (set_scan m' buf' (meta_part (get_hash m' key)) key value)
        (fun e _ he => set_scan_ne_none m' buf' _ key value e he)
        (get_hash m' key)
      refine ⟨ITER_OK,
        { m' with buffer := some buf''
                  count := if claimed then m'.count + 1 else m'.count }, calls', ?_⟩
      simp only [hashmap__set, hr]
      rw [if_neg (by decide), hbuf']
      simp only [probe_set, hpr]
  · by_cases hcnt : m.count = 0
    · exact ⟨none, by simp [hashmap__get, hcnt]⟩
    · obtain ⟨r, hpr⟩ := hprobe m buf hbuf hlen hlog hempty
        (get_scan m buf (meta_part (get_hash m key)) key)
        (fun e _ he => get_scan_ne_none m buf _ key e he)
        (get_hash m key)
      refine ⟨r, ?_⟩
      simp only [hashmap__get, hcnt, if_false, hbuf]
      simp only [probe_get, hpr]
  · by_cases hcnt : m.count = 0
    · exact ⟨ITER_ENOENT, m, calls, by simp [hashmap__remove, hcnt]⟩
    · obtain ⟨r, hpr⟩ := hprobe m buf hbuf hlen hlog hempty
        (remove_scan m buf (meta_part (get_hash m key)) key)
        (fun e _ he => remove_scan_ne_none m buf _ key e he)
        (get_hash m key)
      rcases r with _ | buf''
      · refine ⟨ITER_ENOENT, m, calls, ?_⟩
        simp only [hashmap__remove, hcnt, if_false, hbuf]
        simp only [probe_remove, hpr]
      · refine ⟨ITER_OK, { m with buffer := some buf'', count := m.count - 1 }, calls, ?_⟩
        simp only [hashmap__remove, hcnt, if_false, hbuf]
        simp only [probe_remove, hpr]
  · rcases reserve_ret_shapes A gas m buf calls n hA hgas hbuf hlen hlog hlog2 hempty with
      ⟨calls', hr⟩ | ⟨m', buf', calls', hr, _, _, _, _, _⟩
    · exact ⟨ITER_ENOMEM, m, calls', hr⟩
    · exact ⟨ITER_OK, m', calls', hr⟩

/-- Witness for the amended C3 statement on a concrete one-entry map. -/
theorem c3_ops_return_with_empty_slot_witness :
    (∃ code m' calls', hashmap__insert allocAlways 1 mapOne 1 (some [9]) (some [4]) =
      .ret code m' calls') ∧
    (∃ code m' calls', hashmap__set allocAlways 1 mapOne 1 (some [9]) (some [4]) =
      .ret code m' calls') ∧
    (∃ p, hashmap__get mapOne (some [9]) = .ptr p) ∧
    (∃ code m' calls', hashmap__remove mapOne 1 (some [9]) = .ret code m' calls') ∧
    (∃ code m' calls', hashmap__reserve allocAlways 1 mapOne 1 7 = .ret code m' calls') :=
  c3_ops_return_with_empty_slot allocAlways 1 mapOne (mapOne.buffer.getD []) 1 7 [9] [4]
    (fun _ => rfl) (by norm_num) rfl (by decide) (by decide) (by decide)
    ⟨0, by decide, by unfold bucketHasEmpty; decide⟩

/-- C1: the round-trip claim fails at the first non-empty growth: after 22
distinct insertions into a fresh map (capacity 32, allocator satisfying every
request), the 23rd distinct insertion — the first to need a rehash — returns
ITER_ENOMEM with the map unchanged, because grow_not_empty's inverted check
reports out-of-memory precisely when its reallocation succeeds.  No sequence
of inserts can force two growth events, let alone be read back afterwards. -/
theorem c1_growth_breaks_roundtrip :
    execOps allocAlways 1 (insKeys 22) mapB1 0 = some (map22, 1) ∧
    hashmap__count map22 = 22 ∧
    hashmap__capacity map22 = 32 ∧
    hashmap__insert allocAlways 1 map22 1 (some [22]) (some [9]) =
      .ret ITER_ENOMEM map22 2 :=
  ⟨rfl, rfl, rfl, rfl⟩

/-- C2: when the reallocation of a non-empty growth fails, grow_not_empty
does not report out-of-memory and does not keep the map intact: on a
one-entry map whose allocator refuses every further request, reserve returns
ITER_OK while the original buffer has been freed and replaced by NULL and
every entry is gone. -/
theorem c2_failed_growth_wipes_map :
    hashmap__count mapOne = 1 ∧
    hashmap__capacity mapOne = 32 ∧
    mapOne.buffer.isSome = true ∧
    wipeRun = .ret ITER_OK mapWiped 3 ∧
    mapWiped.buffer = none ∧
    mapWiped.count = 0 :=
  ⟨rfl, rfl, rfl, rfl, rfl, rfl⟩

/-- C7: a growth that reports success does not always double the capacity:
the same failed-reallocation path as in C2 returns ITER_OK on a capacity-32
map and leaves capacity 0, not 64.  (The other conjuncts of the claim do
hold: a fresh map has capacity 0, and the first growth yields 32 = 2^5.) -/
theorem c7_reported_growth_zeroes_capacity :
    hashmap__capacity mapB1 = 0 ∧
    hashmap__capacity mapOne = 32 ∧
    wipeRun.code = some ITER_OK ∧
    wipeRun.st.map hashmap__capacity = some 0 ∧
    (0 : Nat) ≠ 2 * hashmap__capacity mapOne :=
  ⟨rfl, rfl, rfl, rfl, by decide⟩

/-- C4: the load-factor invariant is breakable: if the allocator fails the
doubled-table reallocation of the 23rd insertion but satisfies the retry
made inside the rehash loop, the rehash rebuilds the table at the same
capacity 32, the insertion then returns ITER_OK, and the resulting state has
count 23 > 0.7 · 32. -/
theorem c4_load_factor_violated :
    overRun = .ret ITER_OK mapOver 3 ∧
    hashmap__count mapOver = 23 ∧
    hashmap__capacity mapOver = 32 ∧
    ¬ (10 * hashmap__count mapOver ≤ 7 * hashmap__capacity mapOver) :=
  ⟨rfl, rfl, rfl, by decide⟩

/-- C10: the bytes grow_empty requests from the allocator are computed from
sizeof(union hashmeta) instead of the bucket stride: the first growth of an
int→double map (bucket stride 208) requests 32 bytes, while every value slot
starts at byte offset ≥ 80 of the buffer and hashmap__free hands the
allocator 416 bytes back — the accesses are out of bounds and the free size
does not match the allocated size. -/
theorem c10_alloc_bytes_too_small :
    mapID0.koffset = 16 ∧ mapID0.voffset = 80 ∧ mapID0.bucketSize = 208 ∧
    max (round_pow2 (hashmap__capacity mapID0)) HASHMAP_MIN = 16 ∧
    grow_empty_alloc_bytes 16 = 32 ∧
    idRun.code = some ITER_OK ∧
    hashmap__capacity mapID1 = 32 ∧
    (∀ b i : Nat, 32 ≤ value_byte_off mapID1 b i) ∧
    free_dealloc_bytes mapID1 = 416 ∧
    (416 : Nat) ≠ 32 := by
  refine ⟨rfl, rfl, rfl, rfl, rfl, rfl, rfl, ?_, rfl, by decide⟩
  intro b i
  have h1 : mapID1.bucketSize = 208 := rfl
  have h2 : mapID1.voffset = 80 := rfl
  have h3 : mapID1.vsize = 8 := rfl
  simp only [value_byte_off, h1, h2, h3]
  omega

/-- C5 counterexample: with_capacity for 1000 entries succeeds but leaves
capacity 32, nowhere near headroom for 1000 insertions: the claimed
`count + n ≤ capacity · 0.7` fails right after the call. -/
theorem c5_cx_with_capacity_underprovisions :
    hashmap__with_capacity allocAlways 1 1000 layoutB1 0 = some (mapWC, 1) ∧
    hashmap__count mapWC = 0 ∧
    hashmap__capacity mapWC = 32 ∧
    ¬ loadOk (hashmap__count mapWC) 1000 (hashmap__capacity mapWC) = true :=
  ⟨rfl, rfl, rfl, by decide⟩

/-- C5 amended: a reserve call that returns Ok under a healthy allocator
either found the threshold already satisfied (and left the map untouched) or
performed exactly one doubling — from an empty table — to
`2 · max(round_pow2(capacity), 16)`, independent of `n`; headroom for `n`
insertions is not guaranteed. -/
theorem c5_reserve_single_doubling (A : Oracle) (gas : Nat) (m : Hashmap)
    (calls n : Nat) (m' : Hashmap) (calls' : Nat)
    (hA : ∀ i, A i = true) (hgas : 1 ≤ gas) (hlog : m.capacityLog2 < 60)
    (h : hashmap__reserve A gas m calls n = .ret ITER_OK m' calls') :
    (loadOk m.count n (hashmap__capacity m) = true ∧ m' = m) ∨
    (m.count = 0 ∧
      hashmap__capacity m' = 2 * max (round_pow2 (hashmap__capacity m)) HASHMAP_MIN) := by
  by_cases hload : loadOk m.count n (hashmap__capacity m) = true
  · left
    refine ⟨hload, ?_⟩
    simp only [hashmap__reserve, reserve_with, hload, if_true] at h
    cases h
    rfl
  · right
    simp only [hashmap__reserve, reserve_with, hload] at h
    rw [if_neg (by simp [hload])] at h
    by_cases hcnt : m.count = 0
    · refine ⟨hcnt, ?_⟩
      rw [if_pos hcnt] at h
      simp only [grow_empty, hA calls, if_true] at h
      have hpow : ∃ j, j < 64 ∧ max (round_pow2 (hashmap__capacity m)) HASHMAP_MIN = 2 ^ j := by
        by_cases hbuf : m.buffer.isSome = true
        · refine ⟨max m.capacityLog2 4, by omega, ?_⟩
          simp only [hashmap__capacity, hbuf, if_true, round_pow2_two_pow]
          show 2 ^ m.capacityLog2 ⊔ (2 ^ 4 : Nat) = _
          rcases Nat.le_total m.capacityLog2 4 with hle | hle
          · rw [Nat.max_eq_right hle,
              Nat.max_eq_right (Nat.pow_le_pow_right (by norm_num) hle)]
          · rw [Nat.max_eq_left hle,
              Nat.max_eq_left (Nat.pow_le_pow_right (by norm_num) hle)]
        · refine ⟨4, by omega, ?_⟩
          simp only [hashmap__capacity, hbuf, if_false]
          rfl
      obtain ⟨j, hj64, hj⟩ := hpow
      cases h
      show 2 ^ (log2_64 (max (round_pow2 (hashmap__capacity m)) HASHMAP_MIN) + 1) = _
      rw [hj, log2_64_two_pow j hj64, pow_succ]
      ring
    · rw [if_neg hcnt] at h
      match gas, hgas with
      | gas + 1, _ =>
        simp only [grow_not_empty, grow_empty, hA calls, if_true] at h
        injection h with hcode _ _
        exact absurd hcode (by decide)

/-- Witness for the amended C5 statement: reserving room for 1000 entries on
a fresh map takes the single-doubling branch, to capacity 32. -/
theorem c5_reserve_single_doubling_witness :
    (loadOk mapB1.count 1000 (hashmap__capacity mapB1) = true ∧ mapWC = mapB1) ∨
    (mapB1.count = 0 ∧
      hashmap__capacity mapWC = 2 * max (round_pow2 (hashmap__capacity mapB1)) HASHMAP_MIN) :=
  c5_reserve_single_doubling allocAlways 1 mapB1 0 1000 mapWC 1
    (fun _ => rfl) (by norm_num) (by norm_num [mapB1, hashmap__init, layoutB1, hashmapJunk]) rfl

/-- C9 counterexample: a map into which an entry was inserted (and then
removed) accepts use_hash: the call returns ITER_OK — not ITER_EINVAL — and
installs the new strategy, because the code only checks the current count. -/
theorem c9_cx_use_hash_after_churn :
    execOps allocAlways 1 [Op.ins [3] [7], Op.rem [3]] mapB1 0 = some (mapUH, 1) ∧
    mapUH.hash.isNone = true ∧
    (hashmap__use_hash mapUH (some fDemo) none).1 = ITER_OK ∧
    ITER_OK ≠ ITER_EINVAL ∧
    (hashmap__use_hash mapUH (some fDemo) none).2.hash.isSome = true :=
  ⟨rfl, rfl, rfl, by decide, rfl⟩

/-- C9 amended: use_hash succeeds exactly when the map currently holds no
item (count = 0), even if entries had been inserted and removed before; with
items present it fails with ITER_EINVAL and leaves the strategy unchanged. -/
theorem c9_use_hash_iff_currently_empty (m : Hashmap) (h : Option HashFn)
    (hr : Option HasherFn) :
    (0 < m.count → hashmap__use_hash m h hr = (ITER_EINVAL, m)) ∧
    (m.count = 0 → hashmap__use_hash m h hr =
      (ITER_OK, { m with hash := h, hasher := hr.getD hasher_fnv1a })) := by
  constructor
  · intro hc
    simp [hashmap__use_hash, hc]
  · intro hc
    simp [hashmap__use_hash, hc]

/-- Witness for the amended C9 statement at a concrete once-used map. -/
theorem c9_use_hash_iff_currently_empty_witness :
    hashmap__use_hash mapUH (some fDemo) none =
      (ITER_OK, { mapUH with hash := some fDemo, hasher := hasher_fnv1a }) :=
  (c9_use_hash_iff_currently_empty mapUH (some fDemo) none).2 rfl

/-- C6 (amended): tombstone discipline under the empty-slot proviso.  From a
well-formed map with a lawful strategy and room below the load threshold,
after insert(K, v) succeeds and remove(K) succeeds, and provided the table
still retains a truly empty slot (without one the probes loop forever — see
the counterexample), get(K) returns NULL; a subsequent insert(K, w) succeeds
and get(K) then returns w; and the insert loop body claims only slots whose
metadata byte is META_EMPTY — never a tombstone, which only a full rehash
clears. -/
theorem c6_tombstone_discipline
    (A : Oracle) (gas : Nat) (s s1 s2 : Hashmap) (c1 c2 c3 c1' c2' : Nat)
    (K v w : Bytes)
    (hwf : WF s) (hlaw : StrategyLawful s)
    (hload : loadOk s.count 1 (hashmap__capacity s) = true)
    (h1 : hashmap__insert A gas s c1 (some K) (some v) = .ret ITER_OK s1 c1')
    (h2 : hashmap__remove s1 c2 (some K) = .ret ITER_OK s2 c2')
    (hsurv : ∃ bufr, s2.buffer = some bufr ∧ hasEmptySlot bufr) :
    hashmap__get s2 (some K) = .ptr none ∧
    (∃ s3 c3', hashmap__insert A gas s2 c3 (some K) (some w) = .ret ITER_OK s3 c3' ∧
      hashmap__get s3 (some K) = .ptr (some w)) ∧
    (∀ (mx : Hashmap) (bufx : List Bucket) (pt : Nat) (kx vx : Bytes) (bx : Nat)
      (bufy : List Bucket), insert_scan mx bufx pt kx vx bx = some (some bufy) →
      ∃ i, i < 16 ∧ (bufx.getD bx Bucket.junk).meta.getD i 0 = META_EMPTY ∧
        (bufx.getD bx Bucket.junk).meta.getD i 0 ≠ META_TOMB ∧
        bufy = claimSlot bufx bx i pt kx vx) := by
  obtain ⟨buf, buf1, hbuf, hp1, hs1, hc1⟩ :=
    insert_ok_noGrowth_spec A gas s c1 K v s1 c1' hload h1
  have hwfb : BufWF s buf := WF_some s buf hbuf hwf
  have hlog4 : 4 ≤ s.capacityLog2 := le_trans (by decide) hwfb.log5
  have hlen : buf.length = 2 ^ (s.capacityLog2 - 4) := hwfb.len
  have hnpos : 0 < 2 ^ (s.capacityLog2 - 4) := Nat.two_pow_pos _
  have hb0 : get_hash s K % 2 ^ (s.capacityLog2 - 4) < 2 ^ (s.capacityLog2 - 4) :=
    Nat.mod_lt _ hnpos
  have hmask : get_mask s = 2 ^ (s.capacityLog2 - 4) - 1 :=
    get_mask_of_buffer s buf hbuf hlog4
  have hp1' : bucket_each (insert_scan s buf (meta_part (get_hash s K)) K v)
      (2 ^ (s.capacityLog2 - 4) - 1) buf.length
      (get_hash s K % 2 ^ (s.capacityLog2 - 4)) = some (some buf1) := by
    rw [probe_insert, hmask, Nat.and_pow_two_sub_one_eq_mod] at hp1
    exact hp1
  have hNoEq : noEqSlot s buf K :=
    insert_probe_no_eq s buf (s.capacityLog2 - 4) K v buf1 hlen hlaw hwfb.find hp1'
  obtain ⟨d, hd, hclaim, hnone⟩ := bucket_each_reaches _ (s.capacityLog2 - 4) _
    buf.length (get_hash s K % 2 ^ (s.capacityLog2 - 4)) hb0 hp1'
  obtain ⟨hnoEq_c, i, hi16, hiE, hbuf1⟩ :=
    insert_scan_claim_spec s buf _ K v _ buf1 hclaim
  have hbc_lt : (get_hash s K % 2 ^ (s.capacityLog2 - 4) + d) %
      2 ^ (s.capacityLog2 - 4) < buf.length := by
    rw [hlen]
    exact Nat.mod_lt _ hnpos
  have hbwc : BucketWF (buf.getD ((get_hash s K % 2 ^ (s.capacityLog2 - 4) + d) %
      2 ^ (s.capacityLog2 - 4)) Bucket.junk) := hwfb.bwf _ hbc_lt
  have hbk1 : buf1.getD ((get_hash s K % 2 ^ (s.capacityLog2 - 4) + d) %
      2 ^ (s.capacityLog2 - 4)) Bucket.junk =
      { meta := (buf.getD ((get_hash s K % 2 ^ (s.capacityLog2 - 4) + d) %
          2 ^ (s.capacityLog2 - 4)) Bucket.junk).meta.set i
          (meta_part (get_hash s K))
        keys := (buf.getD ((get_hash s K % 2 ^ (s.capacityLog2 - 4) + d) %
          2 ^ (s.capacityLog2 - 4)) Bucket.junk).keys.set i K
        vals := (buf.getD ((get_hash s K % 2 ^ (s.capacityLog2 - 4) + d) %
          2 ^ (s.capacityLog2 - 4)) Bucket.junk).vals.set i v } := by
    rw [hbuf1, claimSlot]
    exact getD_set_self buf _ _ Bucket.junk hbc_lt
  have hmeta1 : (buf1.getD ((get_hash s K % 2 ^ (s.capacityLog2 - 4) + d) %
      2 ^ (s.capacityLog2 - 4)) Bucket.junk).meta =
      (buf.getD ((get_hash s K % 2 ^ (s.capacityLog2 - 4) + d) %
        2 ^ (s.capacityLog2 - 4)) Bucket.junk).meta.set i
        (meta_part (get_hash s K)) := by
    rw [hbk1]
  have hkeys1 : (buf1.getD ((get_hash s K % 2 ^ (s.capacityLog2 - 4) + d) %
      2 ^ (s.capacityLog2 - 4)) Bucket.junk).keys =
      (buf.getD ((get_hash s K % 2 ^ (s.capacityLog2 - 4) + d) %
        2 ^ (s.capacityLog2 - 4)) Bucket.junk).keys.set i K := by
    rw [hbk1]
  have hvals1 : (buf1.getD ((get_hash s K % 2 ^ (s.capacityLog2 - 4) + d) %
      2 ^ (s.capacityLog2 - 4)) Bucket.junk).vals =
      (buf.getD ((get_hash s K % 2 ^ (s.capacityLog2 - 4) + d) %
        2 ^ (s.capacityLog2 - 4)) Bucket.junk).vals.set i v := by
    rw [hbk1]
  have hbk1' : ∀ x, x ≠ (get_hash s K % 2 ^ (s.capacityLog2 - 4) + d) %
      2 ^ (s.capacityLog2 - 4) →
      buf1.getD x Bucket.junk = buf.getD x Bucket.junk := by
    intro x hx
    rw [hbuf1, claimSlot]
    exact getD_set_ne buf _ x _ Bucket.junk (fun hh => hx hh.symm)
  have hlen1 : buf1.length = buf.length := by
    rw [hbuf1]
    exact claimSlot_length buf _ i _ K v
  obtain ⟨hcnt1, bufx, buf2, hbufx, hp2, hs2, hc2⟩ := remove_ok_spec s1 c2 K s2 c2' h2
  rw [hs1] at hbufx
  injection hbufx with hbufx
  subst hbufx
  have e_cmp1 : ∀ x y, compare_key s1 x y = compare_key s x y := by
    intro x y
    rw [hs1]
    rfl
  have e_hash1 : get_hash s1 K = get_hash s K := by rw [hs1]; rfl
  have e_cap1 : hashmap__capacity s1 = 2 ^ s.capacityLog2 := by
    rw [capacity_of_buffer s1 buf1 (by rw [hs1]), hs1]
  have e_mask1 : get_mask s1 = 2 ^ (s.capacityLog2 - 4) - 1 := by
    rw [get_mask, e_cap1, META_SIZE, mask_two_pow _ hlog4]
  have e_rscan : remove_scan s1 buf1 (meta_part (get_hash s K)) K =
      remove_scan s buf1 (meta_part (get_hash s K)) K :=
    funext fun b => remove_scan_congr s s1 e_cmp1 buf1 _ K b
  have hp2' : bucket_each (remove_scan s buf1 (meta_part (get_hash s K)) K)
      (2 ^ (s.capacityLog2 - 4) - 1) buf1.length
      (get_hash s K % 2 ^ (s.capacityLog2 - 4)) = some (some buf2) := by
    rw [probe_remove, e_hash1, e_mask1, e_rscan, Nat.and_pow_two_sub_one_eq_mod] at hp2
    exact hp2
  have hrun2 : bucket_each (remove_scan s buf1 (meta_part (get_hash s K)) K)
      (2 ^ (s.capacityLog2 - 4) - 1) buf1.length
      (get_hash s K % 2 ^ (s.capacityLog2 - 4)) =
      some (some (buf1.set ((get_hash s K % 2 ^ (s.capacityLog2 - 4) + d) %
        2 ^ (s.capacityLog2 - 4))
        { meta := (buf1.getD ((get_hash s K % 2 ^ (s.capacityLog2 - 4) + d) %
            2 ^ (s.capacityLog2 - 4)) Bucket.junk).meta.set i META_TOMB
          keys := (buf1.getD ((get_hash s K % 2 ^ (s.capacityLog2 - 4) + d) %
            2 ^ (s.capacityLog2 - 4)) Bucket.junk).keys
          vals := (buf1.getD ((get_hash s K % 2 ^ (s.capacityLog2 - 4) + d) %
            2 ^ (s.capacityLog2 - 4)) Bucket.junk).vals })) := by
    apply bucket_each_of_first _ _ _ d buf1.length _ hb0 (by rw [hlen1]; exact hd)
    · intro q hq
      have hd2 : d < 2 ^ (s.capacityLog2 - 4) := by rw [← hlen]; exact hd
      have hne : (get_hash s K % 2 ^ (s.capacityLog2 - 4) + q) %
          2 ^ (s.capacityLog2 - 4) ≠
          (get_hash s K % 2 ^ (s.capacityLog2 - 4) + d) %
          2 ^ (s.capacityLog2 - 4) := by
        intro hh
        exact absurd (walk_pos_inj _ q d _ (lt_trans hq hd2) hd2 hh)
          (Nat.ne_of_lt hq)
      have hbq := hbk1' _ hne
      have hspec := insert_scan_none_spec s buf _ K v _ (hnone q hq)
      apply remove_scan_eq_none
      · intro j hj
        rw [hbq]
        exact hspec.1 j hj
      · rw [hbq]
        exact hspec.2
    · apply remove_scan_eq_found s buf1 _ K _ i hi16
      · rw [hmeta1]
        exact getD_set_self _ i _ 0 (by rw [hbwc.metaLen]; exact hi16)
      · rw [hkeys1, getD_set_self _ i K [] (by rw [hbwc.keysLen]; exact hi16)]
        exact hlaw.1 K
      · intro j hj htagj heqj
        by_contra hne
        rw [hmeta1, getD_set_ne _ i j _ 0 (fun hh => hne hh.symm)] at htagj
        rw [hkeys1, getD_set_ne _ i j _ [] (fun hh => hne hh.symm)] at heqj
        exact hnoEq_c j hj htagj heqj
  have hbuf2 : buf2 = buf1.set ((get_hash s K % 2 ^ (s.capacityLog2 - 4) + d) %
      2 ^ (s.capacityLog2 - 4))
      { meta := (buf1.getD ((get_hash s K % 2 ^ (s.capacityLog2 - 4) + d) %
          2 ^ (s.capacityLog2 - 4)) Bucket.junk).meta.set i META_TOMB
        keys := (buf1.getD ((get_hash s K % 2 ^ (s.capacityLog2 - 4) + d) %
          2 ^ (s.capacityLog2 - 4)) Bucket.junk).keys
        vals := (buf1.getD ((get_hash s K % 2 ^ (s.capacityLog2 - 4) + d) %
          2 ^ (s.capacityLog2 - 4)) Bucket.junk).vals } := by
    have hh := hp2'.symm.trans hrun2
    simpa using hh
  have hbuf2' : buf2 = buf.set ((get_hash s K % 2 ^ (s.capacityLog2 - 4) + d) %
      2 ^ (s.capacityLog2 - 4))
      { meta := (buf.getD ((get_hash s K % 2 ^ (s.capacityLog2 - 4) + d) %
          2 ^ (s.capacityLog2 - 4)) Bucket.junk).meta.set i META_TOMB
        keys := (buf.getD ((get_hash s K % 2 ^ (s.capacityLog2 - 4) + d) %
          2 ^ (s.capacityLog2 - 4)) Bucket.junk).keys.set i K
        vals := (buf.getD ((get_hash s K % 2 ^ (s.capacityLog2 - 4) + d) %
          2 ^ (s.capacityLog2 - 4)) Bucket.junk).vals.set i v } := by
    rw [hbuf2, hmeta1, hkeys1, hvals1, List.set_set, hbuf1, claimSlot_set]
  have hgetD2 : ∀ x, x ≠ (get_hash s K % 2 ^ (s.capacityLog2 - 4) + d) %
      2 ^ (s.capacityLog2 - 4) →
      buf2.getD x Bucket.junk = buf.getD x Bucket.junk := by
    intro x hx
    rw [hbuf2']
    exact getD_set_ne buf _ x _ Bucket.junk (fun hh => hx hh.symm)
  have hbk2 : buf2.getD ((get_hash s K % 2 ^ (s.capacityLog2 - 4) + d) %
      2 ^ (s.capacityLog2 - 4)) Bucket.junk =
      { meta := (buf.getD ((get_hash s K % 2 ^ (s.capacityLog2 - 4) + d) %
          2 ^ (s.capacityLog2 - 4)) Bucket.junk).meta.set i META_TOMB
        keys := (buf.getD ((get_hash s K % 2 ^ (s.capacityLog2 - 4) + d) %
          2 ^ (s.capacityLog2 - 4)) Bucket.junk).keys.set i K
        vals := (buf.getD ((get_hash s K % 2 ^ (s.capacityLog2 - 4) + d) %
          2 ^ (s.capacityLog2 - 4)) Bucket.junk).vals.set i v } := by
    rw [hbuf2']
    exact getD_set_self buf _ _ Bucket.junk hbc_lt
  have hmeta2 : (buf2.getD ((get_hash s K % 2 ^ (s.capacityLog2 - 4) + d) %
      2 ^ (s.capacityLog2 - 4)) Bucket.junk).meta =
      (buf.getD ((get_hash s K % 2 ^ (s.capacityLog2 - 4) + d) %
        2 ^ (s.capacityLog2 - 4)) Bucket.junk).meta.set i META_TOMB := by
    rw [hbk2]
  have hkeys2 : (buf2.getD ((get_hash s K % 2 ^ (s.capacityLog2 - 4) + d) %
      2 ^ (s.capacityLog2 - 4)) Bucket.junk).keys =
      (buf.getD ((get_hash s K % 2 ^ (s.capacityLog2 - 4) + d) %
        2 ^ (s.capacityLog2 - 4)) Bucket.junk).keys.set i K := by
    rw [hbk2]
  have hvals2 : (buf2.getD ((get_hash s K % 2 ^ (s.capacityLog2 - 4) + d) %
      2 ^ (s.capacityLog2 - 4)) Bucket.junk).vals =
      (buf.getD ((get_hash s K % 2 ^ (s.capacityLog2 - 4) + d) %
        2 ^ (s.capacityLog2 - 4)) Bucket.junk).vals.set i v := by
    rw [hbk2]
  have hlen2 : buf2.length = buf.length := by
    rw [hbuf2']
    apply List.length_set
  have hNoEq2 : noEqSlot s buf2 K := by
    intro b hb j hj htagj hcmpj
    rw [hlen2] at hb
    by_cases hbbc : b = (get_hash s K % 2 ^ (s.capacityLog2 - 4) + d) %
        2 ^ (s.capacityLog2 - 4)
    · subst hbbc
      by_cases hji : j = i
      · subst hji
        rw [hmeta2, getD_set_self _ j META_TOMB 0
          (by rw [hbwc.metaLen]; exact hj)] at htagj
        have h2le := meta_part_ge_two (get_hash s K)
        rw [← htagj] at h2le
        exact absurd h2le (by decide)
      · rw [hmeta2, getD_set_ne _ i j _ 0 (fun hh => hji hh.symm)] at htagj
        rw [hkeys2, getD_set_ne _ i j _ [] (fun hh => hji hh.symm)] at hcmpj
        exact hNoEq _ hbc_lt j hj htagj hcmpj
    · rw [hgetD2 b hbbc] at htagj hcmpj
      exact hNoEq b hb j hj htagj hcmpj
  have hbuf2eq : s2.buffer = some buf2 := by rw [hs2]
  have hcnt2 : s2.count = s.count := by
    rw [hs2, hs1]
    show s.count + 1 - 1 = s.count
    omega
  have e_cmp2 : ∀ x y, compare_key s2 x y = compare_key s x y := by
    intro x y
    rw [hs2, hs1]
    rfl
  have e_hash2 : get_hash s2 K = get_hash s K := by rw [hs2, hs1]; rfl
  have e_cap2 : hashmap__capacity s2 = 2 ^ s.capacityLog2 := by
    rw [capacity_of_buffer s2 buf2 hbuf2eq, hs2, hs1]
  have e_mask2 : get_mask s2 = 2 ^ (s.capacityLog2 - 4) - 1 := by
    rw [get_mask, e_cap2, META_SIZE, mask_two_pow _ hlog4]
  obtain ⟨bufr, hbufr, hsurv2⟩ := hsurv
  have hbr : bufr = buf2 := by
    have hh := hbufr.symm.trans hbuf2eq
    simpa using hh
  rw [hbr] at hsurv2
  refine ⟨?_, ?_, ?_⟩
  · by_cases hc0 : s2.count = 0
    · simp only [hashmap__get]
      rw [if_pos hc0]
    · obtain ⟨e0, he0len, he0⟩ := hsurv2
      rw [hlen2, hlen] at he0len
      obtain ⟨r, hrr⟩ := bucket_each_ex_some
        (get_scan s buf2 (meta_part (get_hash s K)) K) (s.capacityLog2 - 4)
        (get_hash s K % 2 ^ (s.capacityLog2 - 4)) hb0
        ⟨e0, he0len, get_scan_ne_none s buf2 _ K e0 he0⟩
      have hrnone : r = none := by
        rcases r with _ | wv
        · rfl
        · exfalso
          obtain ⟨dg, hdg, hsome, _⟩ := bucket_each_reaches _ (s.capacityLog2 - 4) _
            _ _ hb0 hrr
          obtain ⟨jj, hjj16, htagjj, hcmpjj, _⟩ :=
            get_scan_some_spec s buf2 _ K _ wv hsome
          exact hNoEq2 _ (by rw [hlen2, hlen]; exact Nat.mod_lt _ hnpos)
            jj hjj16 htagjj hcmpjj
      subst hrnone
      have e_gscan2 : get_scan s2 buf2 (meta_part (get_hash s K)) K =
          get_scan s buf2 (meta_part (get_hash s K)) K :=
        funext fun b => get_scan_congr s s2 e_cmp2 buf2 _ K b
      apply get_some_of_probe s2 K buf2 none hc0 hbuf2eq
      rw [probe_get, e_hash2, e_mask2, Nat.and_pow_two_sub_one_eq_mod, e_gscan2,
        show buf2.length = 2 ^ (s.capacityLog2 - 4) from by rw [hlen2, hlen]]
      exact hrr
  · have hload2 : loadOk s2.count 1 (hashmap__capacity s2) = true := by
      rw [hcnt2, e_cap2, ← capacity_of_buffer s buf hbuf]
      exact hload
    haveI hdec : DecidablePred (fun q => bucketHasEmpty
        (buf2.getD ((get_hash s K % 2 ^ (s.capacityLog2 - 4) + q) %
          2 ^ (s.capacityLog2 - 4)) Bucket.junk)) :=
      fun q => @instDecidableNot _ (Nat.decEq _ _)
    obtain ⟨e0, he0len, he0⟩ := hsurv2
    rw [hlen2, hlen] at he0len
    have hq0P : bucketHasEmpty (buf2.getD ((get_hash s K %
        2 ^ (s.capacityLog2 - 4) +
        (e0 + 2 ^ (s.capacityLog2 - 4) - get_hash s K % 2 ^ (s.capacityLog2 - 4)) %
          2 ^ (s.capacityLog2 - 4)) % 2 ^ (s.capacityLog2 - 4)) Bucket.junk) := by
      have heq : (get_hash s K % 2 ^ (s.capacityLog2 - 4) +
          (e0 + 2 ^ (s.capacityLog2 - 4) -
            get_hash s K % 2 ^ (s.capacityLog2 - 4)) %
            2 ^ (s.capacityLog2 - 4)) % 2 ^ (s.capacityLog2 - 4) = e0 := by
        rw [Nat.add_mod_mod,
          show get_hash s K % 2 ^ (s.capacityLog2 - 4) +
            (e0 + 2 ^ (s.capacityLog2 - 4) -
              get_hash s K % 2 ^ (s.capacityLog2 - 4)) =
            e0 + 2 ^ (s.capacityLog2 - 4) from by omega,
          Nat.add_mod_right, Nat.mod_eq_of_lt he0len]
      rw [heq]
      exact he0
    have hexq : ∃ q, bucketHasEmpty (buf2.getD ((get_hash s K %
        2 ^ (s.capacityLog2 - 4) + q) % 2 ^ (s.capacityLog2 - 4)) Bucket.junk) :=
      ⟨_, hq0P⟩
    obtain ⟨em, hemP, hemMin, hemLt⟩ : ∃ em, bucketHasEmpty (buf2.getD
        ((get_hash s K % 2 ^ (s.capacityLog2 - 4) + em) %
          2 ^ (s.capacityLog2 - 4)) Bucket.junk) ∧
        (∀ q < em, ¬ bucketHasEmpty (buf2.getD ((get_hash s K %
          2 ^ (s.capacityLog2 - 4) + q) % 2 ^ (s.capacityLog2 - 4))
          Bucket.junk)) ∧
        em < 2 ^ (s.capacityLog2 - 4) :=
      ⟨Nat.find hexq, Nat.find_spec hexq, fun q hq => Nat.find_min hexq hq,
        lt_of_le_of_lt (Nat.find_min' hexq hq0P) (Nat.mod_lt _ hnpos)⟩
    have hem_lt : (get_hash s K % 2 ^ (s.capacityLog2 - 4) + em) %
        2 ^ (s.capacityLog2 - 4) < buf2.length := by
      rw [hlen2, hlen]
      exact Nat.mod_lt _ hnpos
    have hwf2bw : ∀ b, b < buf2.length → BucketWF (buf2.getD b Bucket.junk) := by
      intro b hb
      by_cases hbbc : b = (get_hash s K % 2 ^ (s.capacityLog2 - 4) + d) %
          2 ^ (s.capacityLog2 - 4)
      · subst hbbc
        refine ⟨?_, ?_, ?_⟩
        · rw [hmeta2, List.length_set]
          exact hbwc.metaLen
        · rw [hkeys2, List.length_set]
          exact hbwc.keysLen
        · rw [hvals2, List.length_set]
          exact hbwc.valsLen
      · rw [hgetD2 b hbbc]
        rw [hlen2] at hb
        exact hwfb.bwf b hb
    have hbw2em : BucketWF (buf2.getD ((get_hash s K %
        2 ^ (s.capacityLog2 - 4) + em) % 2 ^ (s.capacityLog2 - 4))
        Bucket.junk) := hwf2bw _ hem_lt
    rcases hsb : setBits (meta_match (buf2.getD ((get_hash s K %
        2 ^ (s.capacityLog2 - 4) + em) % 2 ^ (s.capacityLog2 - 4))
        Bucket.junk).meta META_EMPTY) with _ | ⟨i3, rest⟩
    · exact absurd (setBits_meta_match_eq_nil _ _ hsb) hemP
    obtain ⟨hi316, hi3E⟩ := (mem_setBits_meta_match _ META_EMPTY i3).mp
      (by rw [hsb]; exact List.mem_cons_self i3 rest)
    have hwalkN : ∀ q < em, insert_scan s buf2 (meta_part (get_hash s K)) K w
        ((get_hash s K % 2 ^ (s.capacityLog2 - 4) + q) %
          2 ^ (s.capacityLog2 - 4)) = none := by
      intro q hq
      apply insert_scan_eq_none
      · intro j hj htagj
        exact hNoEq2 _ (by rw [hlen2, hlen]; exact Nat.mod_lt _ hnpos) j hj htagj
      · exact of_not_not (hemMin q hq)
    have hclaim3 : insert_scan s buf2 (meta_part (get_hash s K)) K w
        ((get_hash s K % 2 ^ (s.capacityLog2 - 4) + em) %
          2 ^ (s.capacityLog2 - 4)) =
        some (some (claimSlot buf2 ((get_hash s K % 2 ^ (s.capacityLog2 - 4) +
          em) % 2 ^ (s.capacityLog2 - 4)) i3 (meta_part (get_hash s K)) K w)) := by
      apply insert_scan_eq_claim
      · intro j hj htagj
        exact hNoEq2 _ hem_lt j hj htagj
      · exact hsb
    have hp3 : bucket_each (insert_scan s buf2 (meta_part (get_hash s K)) K w)
        (2 ^ (s.capacityLog2 - 4) - 1) buf2.length
        (get_hash s K % 2 ^ (s.capacityLog2 - 4)) =
        some (some (claimSlot buf2 ((get_hash s K % 2 ^ (s.capacityLog2 - 4) +
          em) % 2 ^ (s.capacityLog2 - 4)) i3 (meta_part (get_hash s K)) K w)) :=
      bucket_each_of_first _ _ _ em buf2.length _ hb0
        (by rw [hlen2, hlen]; exact hemLt) hwalkN hclaim3
    have e_iscan2 : insert_scan s2 buf2 (meta_part (get_hash s K)) K w =
        insert_scan s buf2 (meta_part (get_hash s K)) K w :=
      funext fun b => insert_scan_congr s s2 e_cmp2 buf2 _ K w b
    have hins3 : hashmap__insert A gas s2 c3 (some K) (some w) =
        .ret ITER_OK { s2 with buffer := some (claimSlot buf2 ((get_hash s K %
          2 ^ (s.capacityLog2 - 4) + em) % 2 ^ (s.capacityLog2 - 4)) i3
          (meta_part (get_hash s K)) K w), count := s2.count + 1 } c3 := by
      apply insert_ok_of_probe A gas s2 c3 K w buf2 _ hload2 hbuf2eq
      rw [probe_insert, e_hash2, e_mask2, Nat.and_pow_two_sub_one_eq_mod, e_iscan2]
      exact hp3
    refine ⟨_, c3, hins3, ?_⟩
    generalize hbuf3 : claimSlot buf2 ((get_hash s K % 2 ^ (s.capacityLog2 - 4) +
      em) % 2 ^ (s.capacityLog2 - 4)) i3 (meta_part (get_hash s K)) K w = buf3
    have hbk3 : buf3.getD ((get_hash s K % 2 ^ (s.capacityLog2 - 4) + em) %
        2 ^ (s.capacityLog2 - 4)) Bucket.junk =
        { meta := (buf2.getD ((get_hash s K % 2 ^ (s.capacityLog2 - 4) + em) %
            2 ^ (s.capacityLog2 - 4)) Bucket.junk).meta.set i3
            (meta_part (get_hash s K))
          keys := (buf2.getD ((get_hash s K % 2 ^ (s.capacityLog2 - 4) + em) %
            2 ^ (s.capacityLog2 - 4)) Bucket.junk).keys.set i3 K
          vals := (buf2.getD ((get_hash s K % 2 ^ (s.capacityLog2 - 4) + em) %
            2 ^ (s.capacityLog2 - 4)) Bucket.junk).vals.set i3 w } := by
      rw [← hbuf3, claimSlot]
      exact getD_set_self buf2 _ _ Bucket.junk hem_lt
    have hmeta3 : (buf3.getD ((get_hash s K % 2 ^ (s.capacityLog2 - 4) + em) %
        2 ^ (s.capacityLog2 - 4)) Bucket.junk).meta =
        (buf2.getD ((get_hash s K % 2 ^ (s.capacityLog2 - 4) + em) %
          2 ^ (s.capacityLog2 - 4)) Bucket.junk).meta.set i3
          (meta_part (get_hash s K)) := by
      rw [hbk3]
    have hkeys3 : (buf3.getD ((get_hash s K % 2 ^ (s.capacityLog2 - 4) + em) %
        2 ^ (s.capacityLog2 - 4)) Bucket.junk).keys =
        (buf2.getD ((get_hash s K % 2 ^ (s.capacityLog2 - 4) + em) %
          2 ^ (s.capacityLog2 - 4)) Bucket.junk).keys.set i3 K := by
      rw [hbk3]
    have hvals3 : (buf3.getD ((get_hash s K % 2 ^ (s.capacityLog2 - 4) + em) %
        2 ^ (s.capacityLog2 - 4)) Bucket.junk).vals =
        (buf2.getD ((get_hash s K % 2 ^ (s.capacityLog2 - 4) + em) %
          2 ^ (s.capacityLog2 - 4)) Bucket.junk).vals.set i3 w := by
      rw [hbk3]
    have hgetD3 : ∀ x, x ≠ (get_hash s K % 2 ^ (s.capacityLog2 - 4) + em) %
        2 ^ (s.capacityLog2 - 4) →
        buf3.getD x Bucket.junk = buf2.getD x Bucket.junk := by
      intro x hx
      rw [← hbuf3, claimSlot]
      exact getD_set_ne buf2 _ x _ Bucket.junk (fun hh => hx hh.symm)
    have hlen3 : buf3.length = buf2.length := by
      rw [← hbuf3]
      exact claimSlot_length buf2 _ i3 _ K w
    have e_cmp3 : ∀ x y, compare_key
        { s2 with buffer := some buf3, count := s2.count + 1 } x y =
        compare_key s x y := by
      intro x y
      rw [hs2, hs1]
      rfl
    have e_hash3 : get_hash { s2 with buffer := some buf3, count := s2.count + 1 }
        K = get_hash s K := by
      rw [hs2, hs1]
      rfl
    have e_cap3 : hashmap__capacity
        { s2 with buffer := some buf3, count := s2.count + 1 } =
        2 ^ s.capacityLog2 := by
      rw [capacity_of_buffer _ buf3 rfl, hs2, hs1]
    have e_mask3 : get_mask { s2 with buffer := some buf3, count := s2.count + 1 } =
        2 ^ (s.capacityLog2 - 4) - 1 := by
      rw [get_mask, e_cap3, META_SIZE, mask_two_pow _ hlog4]
    have e_gscan3 : get_scan { s2 with buffer := some buf3, count := s2.count + 1 }
        buf3 (meta_part (get_hash s K)) K =
        get_scan s buf3 (meta_part (get_hash s K)) K :=
      funext fun b => get_scan_congr s _ e_cmp3 buf3 _ K b
    have htag3 : (buf3.getD ((get_hash s K % 2 ^ (s.capacityLog2 - 4) + em) %
        2 ^ (s.capacityLog2 - 4)) Bucket.junk).meta.getD i3 0 =
        meta_part (get_hash s K) := by
      rw [hmeta3]
      exact getD_set_self _ i3 _ 0 (by rw [hbw2em.metaLen]; exact hi316)
    have heq3 : compare_key s K ((buf3.getD ((get_hash s K %
        2 ^ (s.capacityLog2 - 4) + em) % 2 ^ (s.capacityLog2 - 4))
        Bucket.junk).keys.getD i3 []) = 0 := by
      rw [hkeys3, getD_set_self _ i3 K [] (by rw [hbw2em.keysLen]; exact hi316)]
      exact hlaw.1 K
    have huniq3 : ∀ j < 16, (buf3.getD ((get_hash s K %
        2 ^ (s.capacityLog2 - 4) + em) % 2 ^ (s.capacityLog2 - 4))
        Bucket.junk).meta.getD j 0 = meta_part (get_hash s K) →
        compare_key s K ((buf3.getD ((get_hash s K % 2 ^ (s.capacityLog2 - 4) +
          em) % 2 ^ (s.capacityLog2 - 4)) Bucket.junk).keys.getD j []) = 0 →
        j = i3 := by
      intro j hj htagj heqj
      by_contra hne
      rw [hmeta3, getD_set_ne _ i3 j _ 0 (fun hh => hne hh.symm)] at htagj
      rw [hkeys3, getD_set_ne _ i3 j _ [] (fun hh => hne hh.symm)] at heqj
      exact hNoEq2 _ hem_lt j hj htagj heqj
    apply get_some_of_probe _ K buf3 (some w) (Nat.succ_ne_zero _) rfl
    rw [probe_get, e_hash3, e_mask3, Nat.and_pow_two_sub_one_eq_mod, e_gscan3,
      show buf3.length = 2 ^ (s.capacityLog2 - 4) from by rw [hlen3, hlen2, hlen]]
    apply bucket_each_of_first _ _ _ em (2 ^ (s.capacityLog2 - 4)) _ hb0 hemLt
    · intro q hq
      have hneq : (get_hash s K % 2 ^ (s.capacityLog2 - 4) + q) %
          2 ^ (s.capacityLog2 - 4) ≠
          (get_hash s K % 2 ^ (s.capacityLog2 - 4) + em) %
          2 ^ (s.capacityLog2 - 4) := by
        intro hh
        exact absurd (walk_pos_inj _ q em _ (lt_trans hq hemLt) hemLt hh)
          (Nat.ne_of_lt hq)
      have hbq := hgetD3 _ hneq
      apply get_scan_eq_none
      · intro j hj
        rw [hbq]
        intro htagj
        exact hNoEq2 _ (by rw [hlen2, hlen]; exact Nat.mod_lt _ hnpos) j hj htagj
      · rw [hbq]
        exact of_not_not (hemMin q hq)
    · rw [get_scan_eq_found s buf3 (meta_part (get_hash s K)) K
        ((get_hash s K % 2 ^ (s.capacityLog2 - 4) + em) %
          2 ^ (s.capacityLog2 - 4)) i3 hi316 htag3 heq3 huniq3]
      rw [hvals3, getD_set_self _ i3 w [] (by rw [hbw2em.valsLen]; exact hi316)]
  · intro mx bufx pt kx vx bx bufy hscan
    obtain ⟨_, i0, hi016, hi0E, hbufy⟩ :=
      insert_scan_claim_spec mx bufx pt kx vx bx bufy hscan
    refine ⟨i0, hi016, hi0E, ?_, hbufy⟩
    rw [hi0E]
    decide

/-- Witness for the amended C6 statement: insert [5]↦[7] into a fresh
two-bucket map, remove it, get NULL back, re-insert [5]↦[9] and read it. -/
theorem c6_tombstone_discipline_witness :
    hashmap__get c6w2 (some [5]) = .ptr none ∧
    (∃ s3 c3', hashmap__insert allocAlways 1 c6w2 0 (some [5]) (some [9]) =
      .ret ITER_OK s3 c3' ∧ hashmap__get s3 (some [5]) = .ptr (some [9])) ∧
    (∀ (mx : Hashmap) (bufx : List Bucket) (pt : Nat) (kx vx : Bytes) (bx : Nat)
      (bufy : List Bucket), insert_scan mx bufx pt kx vx bx = some (some bufy) →
      ∃ i, i < 16 ∧ (bufx.getD bx Bucket.junk).meta.getD i 0 = META_EMPTY ∧
        (bufx.getD bx Bucket.junk).meta.getD i 0 ≠ META_TOMB ∧
        bufy = claimSlot bufx bx i pt kx vx) :=
  c6_tombstone_discipline allocAlways 1 c6w0 c6w1 c6w2 0 0 0 0 0 [5] [7] [9]
    (by
      show BufWF c6w0 [Bucket.fresh 1 1, Bucket.fresh 1 1]
      refine ⟨rfl, by decide, ?_, by decide, ?_⟩
      · intro b hb
        have hb2 : b < 2 := by simpa using hb
        match b, hb2 with
        | 0, _ => exact ⟨rfl, rfl, rfl⟩
        | 1, _ => exact ⟨rfl, rfl, rfl⟩
      · intro b hb i hi hocc
        exfalso
        have hb2 : b < 2 := by simpa using hb
        revert hocc
        unfold occupiedAt
        revert hi
        revert i
        match b, hb2 with
        | 0, _ => decide
        | 1, _ => decide)
    (default_strategy_lawful c6w0 rfl)
    (by decide)
    rfl
    rfl
    ⟨_, rfl, 0, by decide, by unfold bucketHasEmpty; decide⟩

/-- C6 counterexample: a reachable map on which insert/remove churn has
consumed every slot but one.  Inserting key [5] (claims the final empty slot)
and removing it again both return ITER_OK, yet the following get([5]) does
not return NULL — with every slot occupied or tombstoned the probe loop
rejects both buckets forever and hashmap__get never returns. -/
theorem c6_cx_get_after_remove_hangs :
    Reachable churn30 ∧
    c6run1 = .ret ITER_OK c6map1 1 ∧
    c6run2 = .ret ITER_OK c6map2 1 ∧
    (∀ fuel b, b < 2 →
      probe_get c6map2 (c6map2.buffer.getD []) (get_mask c6map2)
        (meta_part (get_hash c6map2 [5])) [5] fuel b = none) ∧
    hashmap__get c6map2 (some [5]) = .hang := by
  refine ⟨?_, rfl, rfl, ?_, rfl⟩
  · exact reachable_execOps allocAlways 1 (Op.ins [1] [9] :: churnOps 30) mapB1 0
      churn30 1 (Reachable.init layoutB1 mapB1 rfl) rfl
  · intro fuel b hb
    exact bucket_each_all_none
      (get_scan c6map2 (c6map2.buffer.getD []) (meta_part (get_hash c6map2 [5])) [5]) 1
      (fun b hb => by
        match b, hb with
        | 0, _ => rfl
        | 1, _ => rfl)
      fuel b hb

end LibIter
